import Mathlib

/-!
# XEEPROMConfig: a versioned, typed configuration blob kept in EEPROM

Shallow embedding of `src/XEEPROMConfig.cpp`.

* A byte (`unsigned char`, `uint8_t`, `char`) is a `Fin 256`.
* A pointer is the region of memory that starts where it points and runs to
  the end of the object it points into, given as a `List Byte`.  Reading or
  writing beyond the region has no defined behaviour in C; here the operation
  yields `none`.
* `unsigned int` is `sizeofUInt` bytes wide, stored least significant byte
  first (ESP8266, ESP32 and AVR are all little endian).  `sizeofUInt` and
  `TYPE_MAX_LENGTH` come from the platform and from `XEEPROMConfig.h`, neither
  of which is part of the sources at hand, so both are parameters (`Target`).
* The globals `EEPROM` and `Serial` are part of the machine state.  `EEPROM`
  also records every call made to it, in order.
* The `Debug(...)` trace lines have no effect on control flow and are left out.
-/

namespace XEEPROMConfig

/-- One `unsigned char`. -/
abbrev Byte := Fin 256

/-- What the header and the platform fix: the width in bytes of an
`unsigned int` and the value of the `TYPE_MAX_LENGTH` constant. -/
structure Target where
  sizeofUInt : Nat
  TYPE_MAX_LENGTH : Nat
deriving DecidableEq, Repr

/-- Number of values of an `unsigned int`: `2 ^ (8 * sizeofUInt)`. -/
def Target.uintRange (t : Target) : Nat := 256 ^ t.sizeofUInt

/-! ## Memory regions -/

/-- Write the bytes `bs` at offset `off` of the region `mem`. -/
def poke (mem : List Byte) (off : Nat) (bs : List Byte) : Option (List Byte) :=
  if off + bs.length ≤ mem.length then
    some (mem.take off ++ bs ++ mem.drop (off + bs.length))
  else
    none

/-- Read `len` bytes at offset `off` of the region `mem`. -/
def peek (mem : List Byte) (off len : Nat) : Option (List Byte) :=
  if off + len ≤ mem.length then some ((mem.drop off).take len) else none

/-- The `w` low bytes of `v`, least significant first: the representation of
an `unsigned int` in memory. -/
def toBytes : Nat → Nat → List Byte
  | 0, _ => []
  | w + 1, v => ⟨v % 256, Nat.mod_lt v (by decide)⟩ :: toBytes w (v / 256)

/-- The number a little endian byte sequence stands for. -/
def fromBytes : List Byte → Nat
  | [] => 0
  | b :: bs => b.val + 256 * fromBytes bs

/-! ## The C library -/

/-- The `n` bytes that `strncpy(dest, src, n)` writes to `dest`: the
characters of `src` up to its terminator, then zeros up to `n` bytes; or the
first `n` characters when no terminator is found among them.  `none` when the
read runs off the region `src`. -/
def strncpy : List Byte → Nat → Option (List Byte)
  | _, 0 => some []
  | [], _ + 1 => none
  | c :: cs, n + 1 =>
    if c = 0 then some (List.replicate (n + 1) 0)
    else (strncpy cs n).map (fun w => c :: w)

/-- Result of `strcmp(a, b)`: the difference of the first pair of bytes that
differ, `0` when both strings end together.  `none` when the comparison runs
off either region before it is decided. -/
def strcmp : List Byte → List Byte → Option Int
  | a :: as, b :: bs =>
    if a ≠ b then some ((a.val : Int) - (b.val : Int))
    else if a = 0 then some 0
    else strcmp as bs
  | _, _ => none

/-- The C string found at a pointer: the bytes before the first zero byte;
`none` when the region holds no zero byte. -/
def cstr : List Byte → Option (List Byte)
  | [] => none
  | c :: cs => if c = 0 then some [] else (cstr cs).map (fun s => c :: s)

/-! ## The EEPROM library object -/

/-- A call made to the global `EEPROM` object. -/
inductive StoreOp where
  | begin (size : Nat)
  | read (address : Nat)
  | write (address : Nat) (value : Byte)
  | commit
deriving DecidableEq, Repr

/-- The global `EEPROM`: its cells and the calls it has received so far,
oldest first. -/
structure EEPROMClass where
  cells : List Byte
  calls : List StoreOp
deriving DecidableEq, Repr

namespace EEPROMClass

/-- Library call `EEPROM.begin(size)`. -/
def begin (e : EEPROMClass) (size : Nat) : EEPROMClass :=
  { e with calls := e.calls ++ [StoreOp.begin size] }

/-- Library call `EEPROM.read(address)`; an address beyond the cells reads as `0`. -/
def read (e : EEPROMClass) (address : Nat) : Byte × EEPROMClass :=
  (e.cells.getD address 0, { e with calls := e.calls ++ [StoreOp.read address] })

/-- Library call `EEPROM.write(address, value)`; an address beyond the cells is ignored. -/
def write (e : EEPROMClass) (address : Nat) (value : Byte) : EEPROMClass :=
  { cells := e.cells.set address value,
    calls := e.calls ++ [StoreOp.write address value] }

/-- Library call `EEPROM.commit()`. -/
def commit (e : EEPROMClass) : EEPROMClass :=
  { e with calls := e.calls ++ [StoreOp.commit] }

end EEPROMClass

/-! ## The class -/

/-- The members of an `XEEPROMConfigClass` object; `_data` is the region
obtained from `malloc`, `_type` the `char[TYPE_MAX_LENGTH + 1]` member. -/
structure XEEPROMConfigClass where
  _version : Nat
  _type : List Byte
  _dataSize : Nat
  _data : List Byte
deriving DecidableEq, Repr

/-- The object together with the globals its methods use. -/
structure Machine where
  self : XEEPROMConfigClass
  EEPROM : EEPROMClass
  Serial : List String
deriving DecidableEq, Repr

/-- Library call `Serial.println(line)`. -/
def Machine.println (m : Machine) (line : String) : Machine :=
  { m with Serial := m.Serial ++ [line] }

namespace XEEPROMConfigClass

/-- The constructor `XEEPROMConfigClass(version, type, dataSize)`.  `heap`
gives the content of memory that has not been initialised: that of the block
returned by `malloc(dataSize)` and that of `_type` before the copy. -/
def construct (t : Target) (version : Nat) (type : List Byte) (dataSize : Nat)
    (heap : Nat → Byte) : Option XEEPROMConfigClass :=
  (strncpy type t.TYPE_MAX_LENGTH).bind fun w =>
  (poke ((List.range (t.TYPE_MAX_LENGTH + 1)).map heap) 0 w).bind fun ty =>
  (poke ty t.TYPE_MAX_LENGTH [0]).bind fun ty1 =>
  some { _version := version % t.uintRange
         _type := ty1
         _dataSize := dataSize
         _data := (List.range dataSize).map heap }

/-- Method `_getDataPtr()`: the pointer to the data structure. -/
def _getDataPtr (m : Machine) : List Byte := m.self._data

/-- Method `getDataSize()`. -/
def getDataSize (m : Machine) : Nat := m.self._dataSize

/-- The loop of `initFromEeprom`, with `k` iterations left at index `i`. -/
def initFromEepromLoop : Nat → Nat → List Byte → EEPROMClass → Option (List Byte × EEPROMClass)
  | 0, _, data, e => some (data, e)
  | k + 1, i, data, e =>
    (poke data i [(e.read i).1]).bind fun data1 =>
    initFromEepromLoop k (i + 1) data1 (e.read i).2

/-- Method `initFromEeprom()`. -/
def initFromEeprom (m : Machine) : Option Machine :=
  let sizeConfig := getDataSize m
  let ptrConfig := _getDataPtr m
  (initFromEepromLoop sizeConfig 0 ptrConfig (m.EEPROM.begin sizeConfig)).map fun r =>
  { m with self := { m.self with _data := r.1 }, EEPROM := r.2 }

/-- The loop of `saveToEeprom()`, with `k` iterations left at index `i`. -/
def saveToEepromLoop : Nat → Nat → List Byte → EEPROMClass → Option EEPROMClass
  | 0, _, _, e => some e
  | k + 1, i, data, e =>
    (peek data i 1).bind fun b =>
    saveToEepromLoop k (i + 1) data (e.write i (b.headD 0))

/-- Method `saveToEeprom()`: the full save. -/
def saveToEeprom (m : Machine) : Option Machine :=
  let sizeConfig := getDataSize m
  let ptrConfig := _getDataPtr m
  (saveToEepromLoop sizeConfig 0 ptrConfig m.EEPROM).map fun e =>
  { m with EEPROM := e.commit }

/-- Method `saveToEeprom(to)`; the pointer is given as an address. -/
def saveToEepromTo (m : Machine) (_to : Nat) : Machine :=
  m.println "XEEPROMConfigClass::saveToEeprom(to) is not implemented yet."

/-- Method `saveToEeprom(from, to)`; the pointers are given as addresses. -/
def saveToEepromFromTo (m : Machine) (_from _to : Nat) : Machine :=
  m.println "XEEPROMConfigClass::saveToEeprom(from, to) is not implemented yet."

/-- Method `setVersion(version)`. -/
def setVersion (t : Target) (m : Machine) (version : Nat) : Option Machine :=
  (poke (_getDataPtr m) 0 (toBytes t.sizeofUInt version)).map fun d =>
  { m with self := { m.self with _data := d } }

/-- Method `getVersion()`. -/
def getVersion (t : Target) (m : Machine) : Option Nat :=
  (peek (_getDataPtr m) 0 t.sizeofUInt).map fromBytes

/-- Method `setType(type)`. -/
def setType (t : Target) (m : Machine) (type : List Byte) : Option Machine :=
  let typePtr := t.sizeofUInt
  (strncpy type t.TYPE_MAX_LENGTH).bind fun w =>
  (poke (_getDataPtr m) typePtr w).bind fun d =>
  (poke d (typePtr + t.TYPE_MAX_LENGTH) [0]).map fun d1 =>
  { m with self := { m.self with _data := d1 } }

/-- Method `getType()`: the pointer to the type field. -/
def getType (t : Target) (m : Machine) : List Byte :=
  (_getDataPtr m).drop t.sizeofUInt

/-- Method `initFromDefault()`. -/
def initFromDefault (t : Target) (m : Machine) : Option Machine :=
  (setVersion t m m.self._version).bind fun m1 =>
  setType t m1 m1.self._type

/-- The condition of the `if` in `init`; the right operand of `||` is only
evaluated when the left one is false. -/
def initStale (t : Target) (m : Machine) : Option Bool :=
  (getVersion t m).bind fun v =>
  if m.self._version ≠ v then some true
  else (strcmp m.self._type (getType t m)).map fun r => decide (0 ≠ r)

/-- Method `init()`. -/
def init (t : Target) (m : Machine) : Option Machine :=
  (initFromEeprom m).bind fun m1 =>
  (initStale t m1).bind fun stale =>
  if stale then
    (initFromDefault t (m1.println "\n\nEEprom not up to date")).bind fun m2 =>
    saveToEeprom m2
  else
    some (m1.println "\n\nEEprom is up to date.")

end XEEPROMConfigClass

open XEEPROMConfigClass

/-! ## Vocabulary of the statements -/

/-- The cells after the writes `(address, value)` of `ws`, applied in order. -/
def writeAll (cells : List Byte) (ws : List (Nat × Byte)) : List Byte :=
  ws.foldl (fun c p => c.set p.1 p.2) cells

/-- No byte of `s` is the string terminator. -/
def NoNul (s : List Byte) : Prop := ∀ b ∈ s, b ≠ 0

/-- The `n` bytes that `n` reads at addresses `0, 1, ...` return. -/
def loaded (cells : List Byte) (n : Nat) : List Byte :=
  (List.range n).map (fun j => cells.getD j 0)

/-- What the constructor establishes and every method keeps: the buffer has
the announced size, the expected version is an `unsigned int`, and the
expected type is a string of at most `TYPE_MAX_LENGTH` characters followed by
zeros up to the end of the member. -/
structure Inv (t : Target) (c : XEEPROMConfigClass) : Prop where
  data_length : c._data.length = c._dataSize
  version_lt : c._version < t.uintRange
  type_shape : ∃ s, NoNul s ∧ s.length ≤ t.TYPE_MAX_LENGTH ∧
    c._type = s ++ List.replicate (t.TYPE_MAX_LENGTH + 1 - s.length) 0

/-- The buffer that `initFromDefault` leaves, given the one it found. -/
def defaulted (t : Target) (c : XEEPROMConfigClass) (d : List Byte) : List Byte :=
  toBytes t.sizeofUInt c._version ++ c._type ++
    d.drop (t.sizeofUInt + t.TYPE_MAX_LENGTH + 1)

/-- The buffer `d` fails the check of `init` for the object `c`: its version
field is not the expected version, or the string in its type field is not the
expected type. -/
def Stale (t : Target) (c : XEEPROMConfigClass) (d : List Byte) : Prop :=
  fromBytes (d.take t.sizeofUInt) ≠ c._version ∨ cstr (d.drop t.sizeofUInt) ≠ cstr c._type

instance (t : Target) (c : XEEPROMConfigClass) (d : List Byte) : Decidable (Stale t c d) := by
  unfold Stale
  exact inferInstance

/-- The machine that `init` leaves when the loaded buffer fails the check. -/
def reinitialized (t : Target) (m : Machine) : Machine :=
  let n := m.self._dataSize
  let d := defaulted t m.self (loaded m.EEPROM.cells n)
  { self := { m.self with _data := d }
    EEPROM :=
      { cells := writeAll m.EEPROM.cells (List.zip (List.range n) d)
        calls := m.EEPROM.calls ++ StoreOp.begin n :: (List.range n).map StoreOp.read ++
          List.zipWith StoreOp.write (List.range n) d ++ [StoreOp.commit] }
    Serial := m.Serial ++ ["\n\nEEprom not up to date"] }

/-- The machine that `init` leaves when the loaded buffer passes the check. -/
def accepted (m : Machine) : Machine :=
  let n := m.self._dataSize
  { self := { m.self with _data := loaded m.EEPROM.cells n }
    EEPROM :=
      { cells := m.EEPROM.cells
        calls := m.EEPROM.calls ++ StoreOp.begin n :: (List.range n).map StoreOp.read }
    Serial := m.Serial ++ ["\n\nEEprom is up to date."] }

/-- The region `r` holds a string of at most `TYPE_MAX_LENGTH` characters: a
zero byte is found at an index not above `TYPE_MAX_LENGTH`. -/
def Terminated (t : Target) (r : List Byte) : Prop :=
  match cstr r with
  | some s => s.length ≤ t.TYPE_MAX_LENGTH
  | none => False

instance (t : Target) (r : List Byte) : Decidable (Terminated t r) := by
  unfold Terminated
  split <;> exact inferInstance

/-- A call of one of the methods that act on the object. -/
inductive Call where
  | init
  | initFromEeprom
  | saveToEeprom
  | saveToEepromTo (stop : Nat)
  | saveToEepromFromTo (start stop : Nat)
  | setVersion (version : Nat)
  | setType (type : List Byte)
  | initFromDefault
deriving DecidableEq, Repr

/-- The effect of one call. -/
def Call.run (t : Target) (m : Machine) : Call → Option Machine
  | .init => XEEPROMConfigClass.init t m
  | .initFromEeprom => XEEPROMConfigClass.initFromEeprom m
  | .saveToEeprom => XEEPROMConfigClass.saveToEeprom m
  | .saveToEepromTo stop => some (XEEPROMConfigClass.saveToEepromTo m stop)
  | .saveToEepromFromTo start stop =>
    some (XEEPROMConfigClass.saveToEepromFromTo m start stop)
  | .setVersion version => XEEPROMConfigClass.setVersion t m version
  | .setType type => XEEPROMConfigClass.setType t m type
  | .initFromDefault => XEEPROMConfigClass.initFromDefault t m

/-- The effect of a sequence of calls, made one after the other. -/
def runAll (t : Target) : List Call → Machine → Option Machine
  | [], m => some m
  | k :: ks, m => (k.run t m).bind (runAll t ks)

/-- The argument of the call is a C string: a `setType` is given a region
that holds a terminator. -/
def Call.WellFormed : Call → Prop
  | .setType type => (0 : Byte) ∈ type
  | _ => True

instance (k : Call) : Decidable k.WellFormed := by
  cases k <;> unfold Call.WellFormed <;> exact inferInstance

/-! ## Values used in the examples -/

/-- A 32 bit target with a type field of 20 characters, for the examples. -/
def demo : Target := { sizeofUInt := 4, TYPE_MAX_LENGTH := 20 }

/-- Uninitialised memory that happens to hold `0xAA` everywhere. -/
def junk : Nat → Byte := fun _ => 170

/-- A store of 40 cells holding version 1 and type `"A"`. -/
def storeV1A : EEPROMClass :=
  { cells := [1, 0, 0, 0, 65, 0] ++ List.replicate 34 7, calls := [] }

/-- A store of 40 cells holding version 5, type `"X"` and a payload. -/
def storeV5X : EEPROMClass :=
  { cells := [5, 0, 0, 0, 88, 0, 9, 8, 7] ++ List.replicate 16 3 ++
      [1, 2, 3, 4, 5, 6, 7, 8, 9, 10, 11, 12, 13, 14, 15],
    calls := [] }

/-- A store of 40 cells holding version 5 and type `"Y"`. -/
def storeV5Y : EEPROMClass :=
  { cells := [5, 0, 0, 0, 89, 0] ++ List.replicate 34 7, calls := [] }

/-- An object with a buffer of eight bytes, next to a store of ten cells. -/
def smallMachine : Machine :=
  { self := { _version := 1, _type := [0, 0, 0], _dataSize := 8,
              _data := [10, 20, 30, 40, 50, 60, 70, 80] },
    EEPROM := { cells := List.replicate 10 255, calls := [] },
    Serial := [] }

/-- The region of 24 bytes that holds the letters `A` to `W` and a terminator:
a string of 23 characters. -/
def longType : List Byte :=
  [65, 66, 67, 68, 69, 70, 71, 72, 73, 74, 75, 76, 77, 78, 79, 80, 81, 82, 83, 84, 85, 86, 87, 0]

/-- An object whose buffer of 32 bytes holds `0xFF` everywhere, next to a
store of 40 cells that holds `0x11` everywhere. -/
def dirtyMachine : Machine :=
  { self := { _version := 1, _type := List.replicate 21 0, _dataSize := 32,
              _data := List.replicate 32 255 },
    EEPROM := { cells := List.replicate 40 17, calls := [] },
    Serial := [] }

/-- An object with a zeroed buffer of 32 bytes, next to a store of 40 cells. -/
def blankMachine : Machine :=
  { self := { _version := 1, _type := List.replicate 21 0, _dataSize := 32,
              _data := List.replicate 32 0 },
    EEPROM := { cells := List.replicate 40 255, calls := [] },
    Serial := [] }

/-- A blank store of 40 cells: every cell holds `0xFF`, so that no field of it
holds a terminated string. -/
def blankStore : EEPROMClass := { cells := List.replicate 40 255, calls := [] }

/-- A sequence that goes through every method of the class. -/
def everyCall : List Call :=
  [Call.init, Call.setVersion 7, Call.setType longType, Call.saveToEeprom,
   Call.saveToEepromTo 3, Call.saveToEepromFromTo 0 3, Call.initFromDefault,
   Call.initFromEeprom, Call.init]

/-! ## Lemmas on memory regions -/

theorem poke_length {mem bs out : List Byte} {off : Nat} (h : poke mem off bs = some out) :
    out.length = mem.length := by
  unfold poke at h
  split at h
  · simp only [Option.some.injEq] at h
    subst h
    simp only [List.length_append, List.length_take, List.length_drop]
    omega
  · simp at h

theorem poke_eq_some {mem bs : List Byte} {off : Nat} (h : off + bs.length ≤ mem.length) :
    poke mem off bs = some (mem.take off ++ bs ++ mem.drop (off + bs.length)) := by
  simp [poke, h]

theorem toBytes_length (w v : Nat) : (toBytes w v).length = w := by
  induction w generalizing v with
  | zero => rfl
  | succ w ih => simp [toBytes, ih]

theorem fromBytes_toBytes (w v : Nat) : fromBytes (toBytes w v) = v % 256 ^ w := by
  induction w generalizing v with
  | zero => simp [toBytes, fromBytes, Nat.mod_one]
  | succ w ih =>
    simp only [toBytes, fromBytes, ih]
    rw [pow_succ, Nat.mul_comm (256 ^ w) 256, Nat.mod_mul]

theorem fromBytes_lt (bs : List Byte) : fromBytes bs < 256 ^ bs.length := by
  induction bs with
  | nil => simp [fromBytes]
  | cons b bs ih =>
    simp only [fromBytes, List.length_cons, pow_succ]
    have := b.isLt
    omega

theorem poke_mid (pre mid post bs : List Byte) (h : bs.length = mid.length) :
    poke (pre ++ mid ++ post) pre.length bs = some (pre ++ bs ++ post) := by
  rw [poke_eq_some (by simp; omega)]
  simp [h, List.take_append_eq_append_take, List.drop_append_eq_append_drop]

theorem peek_mid (pre mid post : List Byte) :
    peek (pre ++ mid ++ post) pre.length mid.length = some mid := by
  simp [peek, List.drop_append_eq_append_drop, List.take_append_eq_append_take]

/-! ## The two loops -/

theorem initFromEepromLoop_mid (k : Nat) (pre mid post : List Byte) (e : EEPROMClass)
    (h : mid.length = k) :
    initFromEepromLoop k pre.length (pre ++ mid ++ post) e =
      some (pre ++ (List.range' pre.length k).map (fun j => e.cells.getD j 0) ++ post,
            { cells := e.cells, calls := e.calls ++ (List.range' pre.length k).map StoreOp.read }) := by
  induction k generalizing pre mid e with
  | zero =>
    have : mid = [] := List.length_eq_zero.mp h
    simp [initFromEepromLoop, this]
  | succ k ih =>
    obtain ⟨x, mid1, rfl⟩ := List.exists_cons_of_length_eq_add_one h
    have hp := poke_mid pre [x] (mid1 ++ post) [(e.read pre.length).1] rfl
    simp only [List.append_assoc, List.singleton_append] at hp
    simp only [initFromEepromLoop, List.append_assoc, List.cons_append, hp, Option.some_bind]
    have := ih (pre ++ [(e.read pre.length).1]) mid1 (e.read pre.length).2 (by simpa using h)
    simp only [List.append_assoc, List.singleton_append, List.length_append,
      List.length_singleton, List.cons_append, List.nil_append] at this
    rw [this]
    simp [EEPROMClass.read, List.range'_succ]

theorem saveToEepromLoop_mid (k : Nat) (pre mid post : List Byte) (e : EEPROMClass)
    (h : mid.length = k) :
    saveToEepromLoop k pre.length (pre ++ mid ++ post) e =
      some { cells := writeAll e.cells (List.zip (List.range' pre.length k) mid),
             calls := e.calls ++
               (List.zipWith StoreOp.write (List.range' pre.length k) mid) } := by
  induction k generalizing pre mid e with
  | zero =>
    have : mid = [] := List.length_eq_zero.mp h
    simp [saveToEepromLoop, this, writeAll]
  | succ k ih =>
    obtain ⟨x, mid1, rfl⟩ := List.exists_cons_of_length_eq_add_one h
    have hp := peek_mid pre [x] (mid1 ++ post)
    simp only [List.append_assoc, List.singleton_append, List.length_singleton] at hp
    simp only [saveToEepromLoop, List.append_assoc, List.cons_append, hp, Option.some_bind,
      List.headD_cons]
    have := ih (pre ++ [x]) mid1 (e.write pre.length x) (by simpa using h)
    simp only [List.append_assoc, List.singleton_append, List.length_append,
      List.length_singleton, List.cons_append, List.nil_append] at this
    rw [this]
    simp [EEPROMClass.write, List.range'_succ, writeAll]

theorem writeAll_length (cells : List Byte) (ws : List (Nat × Byte)) :
    (writeAll cells ws).length = cells.length := by
  induction ws generalizing cells with
  | nil => rfl
  | cons w ws ih => simp [writeAll, List.foldl_cons] at ih ⊢; rw [ih]; simp

theorem writeAll_mid (k : Nat) (epre emid epost mid : List Byte)
    (h : mid.length = k) (he : emid.length = k) :
    writeAll (epre ++ emid ++ epost) (List.zip (List.range' epre.length k) mid) =
      epre ++ mid ++ epost := by
  induction k generalizing epre emid mid with
  | zero =>
    have h1 : mid = [] := List.length_eq_zero.mp h
    have h2 : emid = [] := List.length_eq_zero.mp he
    simp [h1, h2, writeAll]
  | succ k ih =>
    obtain ⟨x, mid1, rfl⟩ := List.exists_cons_of_length_eq_add_one h
    obtain ⟨y, emid1, rfl⟩ := List.exists_cons_of_length_eq_add_one he
    have := ih (epre ++ [x]) emid1 mid1 (by simpa using h) (by simpa using he)
    simp only [List.append_assoc, List.singleton_append, List.length_append,
      List.length_singleton, List.cons_append, List.nil_append] at this
    simp only [writeAll, List.range'_succ, List.zip_cons_cons, List.foldl_cons,
      List.append_assoc, List.cons_append] at this ⊢
    rw [List.set_append_right _ _ (le_refl _)]
    simpa using this

/-! ## Strings -/

theorem cstr_append_zero (s rest : List Byte) (hs : NoNul s) :
    cstr (s ++ 0 :: rest) = some s := by
  induction s with
  | nil => simp [cstr]
  | cons c s ih =>
    have hc : c ≠ 0 := hs c (List.mem_cons_self _ _)
    have hs1 : NoNul s := fun b hb => hs b (List.mem_cons_of_mem _ hb)
    simp [cstr, hc, ih hs1]

theorem cstr_eq_some {r s : List Byte} (h : cstr r = some s) :
    NoNul s ∧ ∃ rest, r = s ++ 0 :: rest := by
  induction r generalizing s with
  | nil => simp [cstr] at h
  | cons c r ih =>
    unfold cstr at h
    split at h
    · rename_i hc
      simp only [Option.some.injEq] at h
      subst h
      exact ⟨fun b hb => by simp at hb, r, by simp [hc]⟩
    · rename_i hc
      cases hr : cstr r with
      | none => simp [hr] at h
      | some s1 =>
        simp only [hr, Option.map_some', Option.some.injEq] at h
        subst h
        obtain ⟨h1, rest, h2⟩ := ih hr
        refine ⟨?_, rest, by simp [h2]⟩
        intro b hb
        rcases List.mem_cons.mp hb with rfl | hb
        · exact hc
        · exact h1 b hb

theorem cstr_isSome_of_mem {r : List Byte} (h : (0 : Byte) ∈ r) : ∃ s, cstr r = some s := by
  induction r with
  | nil => simp at h
  | cons c r ih =>
    by_cases hc : c = 0
    · exact ⟨[], by simp [cstr, hc]⟩
    · have : (0 : Byte) ∈ r := by
        rcases List.mem_cons.mp h with h | h
        · exact absurd h.symm hc
        · exact h
      obtain ⟨s, hs⟩ := ih this
      exact ⟨c :: s, by simp [cstr, hc, hs]⟩

/-- What `strncpy` writes for a string `s` followed by its terminator. -/
theorem strncpy_append_zero (s rest : List Byte) (n : Nat) (hs : NoNul s) :
    strncpy (s ++ 0 :: rest) n = some (s.take n ++ List.replicate (n - s.length) 0) := by
  induction s generalizing n with
  | nil =>
    cases n with
    | zero => simp [strncpy]
    | succ n => simp [strncpy]
  | cons c s ih =>
    have hc : c ≠ 0 := hs c (List.mem_cons_self _ _)
    have hs1 : NoNul s := fun b hb => hs b (List.mem_cons_of_mem _ hb)
    cases n with
    | zero => simp [strncpy]
    | succ n => simp [strncpy, hc, ih n hs1]

theorem strncpy_length {src w : List Byte} {n : Nat} (h : strncpy src n = some w) :
    w.length = n := by
  induction src generalizing n w with
  | nil =>
    cases n with
    | zero => simp [strncpy] at h; simp [h]
    | succ n => simp [strncpy] at h
  | cons c src ih =>
    cases n with
    | zero => simp [strncpy] at h; simp [h]
    | succ n =>
      unfold strncpy at h
      split at h
      · simp only [Option.some.injEq] at h
        subst h
        simp
      · cases hr : strncpy src n with
        | none => simp [hr] at h
        | some w1 =>
          simp only [hr, Option.map_some', Option.some.injEq] at h
          subst h
          simp [ih hr]

/-- Whatever `strncpy` writes is a string of at most `n` characters followed
by zeros only. -/
theorem strncpy_shape {src w : List Byte} {n : Nat} (h : strncpy src n = some w) :
    ∃ s, NoNul s ∧ s.length ≤ n ∧ w = s ++ List.replicate (n - s.length) 0 ∧
      (∀ s0, cstr src = some s0 → s = s0.take n) := by
  induction src generalizing n w with
  | nil =>
    cases n with
    | zero =>
      simp [strncpy] at h
      exact ⟨[], fun b hb => by simp at hb, by simp, by simp [h], by simp [cstr]⟩
    | succ n => simp [strncpy] at h
  | cons c src ih =>
    cases n with
    | zero =>
      simp [strncpy] at h
      exact ⟨[], fun b hb => by simp at hb, by simp, by simp [h], by simp⟩
    | succ n =>
      unfold strncpy at h
      split at h
      · rename_i hc
        simp only [Option.some.injEq] at h
        subst h
        exact ⟨[], fun b hb => by simp at hb, by simp, by simp, by simp [cstr, hc]⟩
      · rename_i hc
        cases hr : strncpy src n with
        | none => simp [hr] at h
        | some w1 =>
          simp only [hr, Option.map_some', Option.some.injEq] at h
          subst h
          obtain ⟨s, h1, h2, h3, h4⟩ := ih hr
          refine ⟨c :: s, ?_, by simpa using h2, by simp [h3], ?_⟩
          · intro b hb
            rcases List.mem_cons.mp hb with rfl | hb
            · exact hc
            · exact h1 b hb
          · intro s0 hs0
            simp only [cstr, hc, if_false] at hs0
            cases hq : cstr src with
            | none => simp [hq] at hs0
            | some s1 =>
              simp only [hq, Option.map_some', Option.some.injEq] at hs0
              subst hs0
              simp [h4 s1 hq]

theorem strncpy_isSome_of_mem {src : List Byte} (n : Nat) (h : (0 : Byte) ∈ src) :
    ∃ w, strncpy src n = some w := by
  obtain ⟨s, hs⟩ := cstr_isSome_of_mem h
  obtain ⟨h1, rest, rfl⟩ := cstr_eq_some hs
  exact ⟨_, strncpy_append_zero s rest n h1⟩

theorem strcmp_decided (s ra b : List Byte) (hb : s.length < b.length) :
    ∃ r, strcmp (s ++ 0 :: ra) b = some r := by
  induction s generalizing b with
  | nil =>
    cases b with
    | nil => simp at hb
    | cons y b =>
      by_cases hy : (0 : Byte) = y
      · exact ⟨0, by simp [strcmp, hy.symm]⟩
      · exact ⟨(((0 : Byte).val : Int) - (y.val : Int)), by
          simp only [List.nil_append, strcmp, ne_eq, hy, not_false_eq_true, if_true]⟩
  | cons c s ih =>
    cases b with
    | nil => simp at hb
    | cons y b =>
      by_cases hy : c = y
      · subst hy
        by_cases hc : c = 0
        · exact ⟨0, by simp [strcmp, hc]⟩
        · obtain ⟨r, hr⟩ := ih b (by simpa using hb)
          exact ⟨r, by simp [strcmp, hc, hr]⟩
      · exact ⟨((c.val : Int) - (y.val : Int)), by
          simp only [List.cons_append, strcmp, ne_eq, hy, not_false_eq_true, if_true]⟩

theorem strcmp_eq_zero_iff (s ra b : List Byte) (hs : NoNul s) :
    strcmp (s ++ 0 :: ra) b = some 0 ↔ cstr b = some s := by
  induction s generalizing b with
  | nil =>
    cases b with
    | nil => simp [strcmp, cstr]
    | cons y b =>
      by_cases hy : (0 : Byte) = y
      · subst hy
        simp [strcmp, cstr]
      · have hy1 : y ≠ 0 := fun h => hy h.symm
        have hv : ((0 : Byte).val : Int) - (y.val : Int) ≠ 0 := by
          intro h
          apply hy
          apply Fin.ext
          omega
        simp only [List.nil_append, strcmp, ne_eq, hy, not_false_eq_true, if_true,
          Option.some.injEq, hv, cstr, hy1, if_false, false_iff]
        cases cstr b <;> simp
  | cons c s ih =>
    have hc : c ≠ 0 := hs c (List.mem_cons_self _ _)
    have hs1 : NoNul s := fun b hb => hs b (List.mem_cons_of_mem _ hb)
    cases b with
    | nil => simp [strcmp, cstr]
    | cons y b =>
      by_cases hy : c = y
      · subst hy
        simp only [List.cons_append, strcmp, ne_eq, not_true_eq_false, if_false, hc, cstr]
        rw [show s.append (0 :: ra) = s ++ 0 :: ra from rfl, ih b hs1]
        cases cstr b <;> simp
      · have hv : (c.val : Int) - (y.val : Int) ≠ 0 := by
          intro h
          apply hy
          apply Fin.ext
          omega
        simp only [List.cons_append, strcmp, ne_eq, hy, not_false_eq_true, if_true,
          Option.some.injEq, hv, false_iff, cstr]
        split
        · simp
        · cases cstr b with
          | none => simp
          | some s1 =>
            simp only [Option.map_some', Option.some.injEq, List.cons.injEq, not_and]
            intro h
            exact absurd h.symm hy

/-! ## Writing a field -/

theorem split3 (mem : List Byte) (a b : Nat) (h : a + b ≤ mem.length) :
    mem = mem.take a ++ (mem.drop a).take b ++ mem.drop (a + b) ∧
      (mem.take a).length = a ∧ ((mem.drop a).take b).length = b := by
  refine ⟨?_, ?_, ?_⟩
  · rw [List.append_assoc, ← List.drop_drop, List.take_append_drop, List.take_append_drop]
  · simp; omega
  · simp; omega

theorem poke_at (mem bs : List Byte) (off : Nat) (h : off + bs.length ≤ mem.length) :
    poke mem off bs = some (mem.take off ++ bs ++ mem.drop (off + bs.length)) :=
  poke_eq_some h

/-- A copy of `w` at `off` followed by the store of a terminator right after
it, as the constructor and `setType` do. -/
theorem poke_string (mem w : List Byte) (off : Nat) (h : off + w.length + 1 ≤ mem.length) :
    ((poke mem off w).bind fun d => poke d (off + w.length) [0]) =
      some (mem.take off ++ w ++ [0] ++ mem.drop (off + w.length + 1)) := by
  rw [poke_at mem w off (by omega)]
  simp only [Option.some_bind]
  obtain ⟨h1, h2, h3⟩ := split3 (mem.drop (off + w.length)) 0 1 (by simp; omega)
  simp only [List.take_zero, List.nil_append, List.drop_zero, List.drop_drop, Nat.add_zero,
    Nat.zero_add] at h1 h3
  have hl : (mem.take off ++ w).length = off + w.length := by simp; omega
  have := poke_mid (mem.take off ++ w) ((mem.drop (off + w.length)).take 1)
    (mem.drop (off + w.length + 1)) [0] (by rw [h3]; rfl)
  rw [hl] at this
  rw [← this]
  congr 1
  rw [List.append_assoc (mem.take off ++ w), ← h1]

theorem peek_zero (mem : List Byte) (n : Nat) (h : n ≤ mem.length) :
    peek mem 0 n = some (mem.take n) := by
  simp [peek, h]

/-! ## Load and save of a whole buffer -/

theorem loaded_length (cells : List Byte) (n : Nat) : (loaded cells n).length = n := by
  simp [loaded]

theorem loaded_eq_take (cells : List Byte) (n : Nat) (h : n ≤ cells.length) :
    loaded cells n = cells.take n := by
  apply List.ext_getElem
  · simp [loaded, h]
  · intro i h1 h2
    simp only [loaded, List.length_map, List.length_range] at h1
    simp [loaded, List.getD_eq_getElem?_getD, List.getElem?_eq_getElem (by omega : i < cells.length)]

theorem initFromEeprom_eq (m : Machine) (h : m.self._data.length = m.self._dataSize) :
    initFromEeprom m = some
      { m with
        self := { m.self with _data := loaded m.EEPROM.cells m.self._dataSize }
        EEPROM :=
          { cells := m.EEPROM.cells
            calls := m.EEPROM.calls ++ StoreOp.begin m.self._dataSize ::
              (List.range m.self._dataSize).map StoreOp.read } } := by
  have := initFromEepromLoop_mid m.self._dataSize [] m.self._data []
    (m.EEPROM.begin m.self._dataSize) h
  simp only [List.nil_append, List.append_nil, List.length_nil] at this
  simp only [initFromEeprom, getDataSize, _getDataPtr, this, Option.map_some']
  simp [loaded, EEPROMClass.begin, List.range_eq_range']

theorem saveToEeprom_eq (m : Machine) (h : m.self._data.length = m.self._dataSize) :
    saveToEeprom m = some
      { m with
        EEPROM :=
          { cells := writeAll m.EEPROM.cells
              (List.zip (List.range m.self._dataSize) m.self._data)
            calls := m.EEPROM.calls ++
              List.zipWith StoreOp.write (List.range m.self._dataSize) m.self._data ++
              [StoreOp.commit] } } := by
  have := saveToEepromLoop_mid m.self._dataSize [] m.self._data [] m.EEPROM h
  simp only [List.nil_append, List.append_nil, List.length_nil] at this
  simp only [saveToEeprom, getDataSize, _getDataPtr, this, Option.map_some']
  simp [EEPROMClass.commit, List.range_eq_range']

theorem writeAll_full (cells data : List Byte) (h : data.length ≤ cells.length) :
    writeAll cells (List.zip (List.range data.length) data) = data ++ cells.drop data.length := by
  have := writeAll_mid data.length [] (cells.take data.length) (cells.drop data.length) data rfl
    (by simp [h])
  simpa [List.range_eq_range'] using this

/-! ## The object invariant -/

theorem replicate_succ_sub (n k : Nat) (h : k ≤ n) :
    List.replicate (n + 1 - k) (0 : Byte) = List.replicate (n - k) 0 ++ [0] := by
  have : n + 1 - k = (n - k) + 1 := by omega
  rw [this, List.replicate_succ']

theorem construct_eq {t : Target} {version dataSize : Nat} {type w : List Byte}
    (heap : Nat → Byte) (h : strncpy type t.TYPE_MAX_LENGTH = some w) :
    construct t version type dataSize heap = some
      { _version := version % t.uintRange
        _type := w ++ [0]
        _dataSize := dataSize
        _data := (List.range dataSize).map heap } := by
  have hw := strncpy_length h
  have := poke_string ((List.range (t.TYPE_MAX_LENGTH + 1)).map heap) w 0 (by simp [hw])
  simp only [List.take_zero, List.nil_append, Nat.zero_add, hw] at this
  rw [List.drop_of_length_le (by simp), List.append_nil] at this
  unfold construct
  simp only [h, Option.some_bind]
  rw [← Option.bind_assoc, this]
  rfl

theorem construct_spec {t : Target} {version dataSize : Nat} {type : List Byte}
    {heap : Nat → Byte} {c : XEEPROMConfigClass}
    (h : construct t version type dataSize heap = some c) :
    Inv t c ∧ c._dataSize = dataSize ∧ c._version = version % t.uintRange ∧
      c._data = (List.range dataSize).map heap ∧
      ∃ w, strncpy type t.TYPE_MAX_LENGTH = some w ∧ c._type = w ++ [0] := by
  cases hw : strncpy type t.TYPE_MAX_LENGTH with
  | none => simp [construct, hw] at h
  | some w =>
    rw [construct_eq heap hw] at h
    simp only [Option.some.injEq] at h
    subst h
    refine ⟨⟨by simp, ?_, ?_⟩, rfl, rfl, rfl, w, rfl, rfl⟩
    · exact Nat.mod_lt _ (by simp [Target.uintRange])
    · obtain ⟨s, h1, h2, h3, _⟩ := strncpy_shape hw
      exact ⟨s, h1, h2, by rw [h3, replicate_succ_sub _ _ h2, List.append_assoc]⟩

theorem construct_isSome (t : Target) (version dataSize : Nat) {type : List Byte}
    (heap : Nat → Byte) (h : (0 : Byte) ∈ type) :
    ∃ c, construct t version type dataSize heap = some c := by
  obtain ⟨w, hw⟩ := strncpy_isSome_of_mem t.TYPE_MAX_LENGTH h
  exact ⟨_, construct_eq heap hw⟩

/-! ## The accessors -/

theorem setVersion_eq (t : Target) (m : Machine) (version : Nat)
    (h : t.sizeofUInt ≤ m.self._data.length) :
    setVersion t m version = some
      { m with self := { m.self with
          _data := toBytes t.sizeofUInt version ++ m.self._data.drop t.sizeofUInt } } := by
  have := poke_at m.self._data (toBytes t.sizeofUInt version) 0
    (by simp [toBytes_length]; exact h)
  simp only [List.take_zero, List.nil_append, Nat.zero_add, toBytes_length] at this
  simp [setVersion, _getDataPtr, this]

theorem getVersion_eq (t : Target) (m : Machine) (h : t.sizeofUInt ≤ m.self._data.length) :
    getVersion t m = some (fromBytes (m.self._data.take t.sizeofUInt)) := by
  simp [getVersion, _getDataPtr, peek_zero _ _ h]

theorem setType_eq (t : Target) (m : Machine) {type w : List Byte}
    (hw : strncpy type t.TYPE_MAX_LENGTH = some w)
    (h : t.sizeofUInt + t.TYPE_MAX_LENGTH + 1 ≤ m.self._data.length) :
    setType t m type = some
      { m with self := { m.self with
          _data := m.self._data.take t.sizeofUInt ++ w ++ [0] ++
            m.self._data.drop (t.sizeofUInt + t.TYPE_MAX_LENGTH + 1) } } := by
  have hl := strncpy_length hw
  have := poke_string m.self._data w t.sizeofUInt (by rw [hl]; exact h)
  rw [hl] at this
  unfold setType
  simp only [hw, Option.some_bind, _getDataPtr]
  cases hp : poke m.self._data t.sizeofUInt w with
  | none => simp [hp] at this
  | some d =>
    simp only [hp, Option.some_bind] at this ⊢
    simp [this]

/-- Under the invariant, copying the expected type reproduces it. -/
theorem strncpy_type {t : Target} {c : XEEPROMConfigClass} (hc : Inv t c) :
    ∃ w, strncpy c._type t.TYPE_MAX_LENGTH = some w ∧ w ++ [0] = c._type ∧
      w.length = t.TYPE_MAX_LENGTH := by
  obtain ⟨s, h1, h2, h3⟩ := hc.type_shape
  have h4 : c._type = s ++ 0 :: List.replicate (t.TYPE_MAX_LENGTH - s.length) 0 := by
    rw [h3]
    have : t.TYPE_MAX_LENGTH + 1 - s.length = (t.TYPE_MAX_LENGTH - s.length) + 1 := by omega
    rw [this, List.replicate_succ]
  have h5 := strncpy_append_zero s (List.replicate (t.TYPE_MAX_LENGTH - s.length) 0)
    t.TYPE_MAX_LENGTH h1
  rw [List.take_of_length_le h2] at h5
  refine ⟨_, by rw [h4]; exact h5, ?_, by simp; omega⟩
  rw [h3, replicate_succ_sub _ _ h2, List.append_assoc]

theorem cstr_type {t : Target} {c : XEEPROMConfigClass} (hc : Inv t c) :
    ∃ s ra, NoNul s ∧ s.length ≤ t.TYPE_MAX_LENGTH ∧ c._type = s ++ 0 :: ra ∧
      cstr c._type = some s := by
  obtain ⟨s, h1, h2, h3⟩ := hc.type_shape
  have h4 : c._type = s ++ 0 :: List.replicate (t.TYPE_MAX_LENGTH - s.length) 0 := by
    rw [h3]
    have : t.TYPE_MAX_LENGTH + 1 - s.length = (t.TYPE_MAX_LENGTH - s.length) + 1 := by omega
    rw [this, List.replicate_succ]
  exact ⟨s, _, h1, h2, h4, by rw [h4]; exact cstr_append_zero s _ h1⟩

theorem initFromDefault_eq (t : Target) (m : Machine) (hc : Inv t m.self)
    (h : t.sizeofUInt + t.TYPE_MAX_LENGTH + 1 ≤ m.self._dataSize) :
    initFromDefault t m = some
      { m with self := { m.self with _data := defaulted t m.self m.self._data } } := by
  have hl := hc.data_length
  obtain ⟨w, hw, hw1, hw2⟩ := strncpy_type hc
  unfold initFromDefault
  rw [setVersion_eq t m _ (by omega)]
  simp only [Option.some_bind]
  rw [setType_eq t _ hw (by simp [toBytes_length]; omega)]
  simp only [defaulted, Option.some.injEq]
  congr 2
  rw [List.take_left' (toBytes_length _ _), List.append_assoc (toBytes _ _), hw1,
    List.drop_append_eq_append_drop, toBytes_length, List.drop_of_length_le
      (by rw [toBytes_length]; omega), List.nil_append, List.drop_drop]
  congr 2
  omega

/-! ## The check made by `init` -/

theorem initStale_eq (t : Target) (m : Machine) (hc : Inv t m.self)
    (h : t.sizeofUInt + t.TYPE_MAX_LENGTH + 1 ≤ m.self._dataSize) :
    initStale t m = some (decide (Stale t m.self m.self._data)) := by
  have hl := hc.data_length
  obtain ⟨s, ra, h1, h2, h3, h4⟩ := cstr_type hc
  unfold initStale
  rw [getVersion_eq t m (by omega)]
  simp only [Option.some_bind, ne_eq, ite_not]
  by_cases hv : m.self._version = fromBytes (m.self._data.take t.sizeofUInt)
  · obtain ⟨r, hr⟩ := strcmp_decided s ra (getType t m)
      (by simp [getType, _getDataPtr]; omega)
    have hz := strcmp_eq_zero_iff s ra (getType t m) h1
    rw [if_pos hv, h3, hr]
    simp only [Option.map_some', Option.some.injEq, decide_eq_decide, Stale, h4]
    rw [hr] at hz
    simp only [Option.some.injEq, getType, _getDataPtr] at hz
    constructor
    · intro h0
      right
      intro hq
      exact h0 (hz.mpr hq).symm
    · rintro (h0 | h0)
      · exact absurd hv.symm h0
      · intro hq
        exact h0 (hz.mp hq.symm)
  · rw [if_neg hv]
    simp only [Option.some.injEq, Stale]
    symm
    rw [decide_eq_true_iff]
    left
    exact fun h0 => hv h0.symm

theorem defaulted_length (t : Target) (c : XEEPROMConfigClass) (d : List Byte)
    (hc : Inv t c) (h : t.sizeofUInt + t.TYPE_MAX_LENGTH + 1 ≤ d.length) :
    (defaulted t c d).length = d.length := by
  obtain ⟨s, h1, h2, h3⟩ := hc.type_shape
  simp only [defaulted, List.length_append, toBytes_length, h3, List.length_replicate,
    List.length_drop]
  omega

theorem init_eq (t : Target) (m : Machine) (hc : Inv t m.self)
    (h : t.sizeofUInt + t.TYPE_MAX_LENGTH + 1 ≤ m.self._dataSize) :
    init t m = some
      (if Stale t m.self (loaded m.EEPROM.cells m.self._dataSize) then reinitialized t m
       else accepted m) := by
  obtain ⟨m1, hm1, e1⟩ : ∃ m1 : Machine, m1 =
      { m with
        self := { m.self with _data := loaded m.EEPROM.cells m.self._dataSize }
        EEPROM :=
          { cells := m.EEPROM.cells
            calls := m.EEPROM.calls ++ StoreOp.begin m.self._dataSize ::
              (List.range m.self._dataSize).map StoreOp.read } } ∧
      initFromEeprom m = some m1 := ⟨_, rfl, initFromEeprom_eq m hc.data_length⟩
  have hc1 : Inv t m1.self := by
    subst hm1
    exact ⟨loaded_length _ _, hc.version_lt, hc.type_shape⟩
  have hn : m1.self._dataSize = m.self._dataSize := by subst hm1; rfl
  have hd : m1.self._data = loaded m.EEPROM.cells m.self._dataSize := by subst hm1; rfl
  unfold init
  rw [e1]
  simp only [Option.some_bind]
  rw [initStale_eq t m1 hc1 (by omega)]
  simp only [Option.some_bind, decide_eq_true_eq]
  have hst : Stale t m1.self m1.self._data ↔
      Stale t m.self (loaded m.EEPROM.cells m.self._dataSize) := by
    subst hm1
    exact Iff.rfl
  by_cases hS : Stale t m.self (loaded m.EEPROM.cells m.self._dataSize)
  · rw [if_pos (hst.mpr hS), if_pos hS]
    have hc2 : Inv t (m1.println "\n\nEEprom not up to date").self := hc1
    rw [initFromDefault_eq t _ hc2 (by simp only [Machine.println]; omega)]
    simp only [Option.some_bind]
    rw [saveToEeprom_eq _ (by
      simp only [Machine.println]
      rw [defaulted_length t _ _ hc1 (by rw [hc1.data_length]; omega), hc1.data_length])]
    subst hm1
    simp [reinitialized, Machine.println, defaulted]
  · rw [if_neg (fun h0 => hS (hst.mp h0)), if_neg hS]
    subst hm1
    simp [accepted, Machine.println]

/-! ## What the two outcomes of `init` look like -/

theorem defaulted_take (t : Target) (c : XEEPROMConfigClass) (d : List Byte) :
    (defaulted t c d).take t.sizeofUInt = toBytes t.sizeofUInt c._version := by
  simp only [defaulted, List.append_assoc]
  exact List.take_left' (toBytes_length _ _)

theorem defaulted_drop (t : Target) (c : XEEPROMConfigClass) (d : List Byte) :
    (defaulted t c d).drop t.sizeofUInt =
      c._type ++ d.drop (t.sizeofUInt + t.TYPE_MAX_LENGTH + 1) := by
  simp only [defaulted, List.append_assoc]
  exact List.drop_left' (toBytes_length _ _)

theorem type_length {t : Target} {c : XEEPROMConfigClass} (hc : Inv t c) :
    c._type.length = t.TYPE_MAX_LENGTH + 1 := by
  obtain ⟨s, _, h2, h3⟩ := hc.type_shape
  rw [h3]
  simp only [List.length_append, List.length_replicate]
  omega

theorem defaulted_payload (t : Target) (c : XEEPROMConfigClass) (d : List Byte) (hc : Inv t c) :
    (defaulted t c d).drop (t.sizeofUInt + t.TYPE_MAX_LENGTH + 1) =
      d.drop (t.sizeofUInt + t.TYPE_MAX_LENGTH + 1) := by
  have h1 : (toBytes t.sizeofUInt c._version ++ c._type).length =
      t.sizeofUInt + t.TYPE_MAX_LENGTH + 1 := by
    rw [List.length_append, toBytes_length, type_length hc, Nat.add_assoc]
  simp only [defaulted]
  exact List.drop_left' h1

theorem fromBytes_defaulted (t : Target) (c : XEEPROMConfigClass) (d : List Byte)
    (hc : Inv t c) :
    fromBytes ((defaulted t c d).take t.sizeofUInt) = c._version := by
  rw [defaulted_take, fromBytes_toBytes]
  exact Nat.mod_eq_of_lt hc.version_lt

theorem cstr_defaulted (t : Target) (c : XEEPROMConfigClass) (d : List Byte) (hc : Inv t c) :
    cstr ((defaulted t c d).drop t.sizeofUInt) = cstr c._type := by
  obtain ⟨s, ra, h1, _, h3, h4⟩ := cstr_type hc
  rw [defaulted_drop, h4, h3, List.append_assoc, List.cons_append]
  exact cstr_append_zero s _ h1

theorem not_stale_defaulted (t : Target) (c : XEEPROMConfigClass) (d : List Byte)
    (hc : Inv t c) : ¬ Stale t c (defaulted t c d) := by
  rintro (h | h)
  · exact h (fromBytes_defaulted t c d hc)
  · exact h (cstr_defaulted t c d hc)

theorem reinitialized_cells (t : Target) (m : Machine) (hc : Inv t m.self)
    (h : t.sizeofUInt + t.TYPE_MAX_LENGTH + 1 ≤ m.self._dataSize)
    (hst : m.self._dataSize ≤ m.EEPROM.cells.length) :
    (reinitialized t m).EEPROM.cells =
      (reinitialized t m).self._data ++ m.EEPROM.cells.drop m.self._dataSize := by
  have hl : (defaulted t m.self (loaded m.EEPROM.cells m.self._dataSize)).length =
      m.self._dataSize := by
    rw [defaulted_length t _ _ hc (by rw [loaded_length]; exact h), loaded_length]
  have := writeAll_full m.EEPROM.cells
    (defaulted t m.self (loaded m.EEPROM.cells m.self._dataSize)) (by omega)
  rw [hl] at this
  simpa [reinitialized] using this

theorem cstr_take (r s : List Byte) (k : Nat) (h : s.length < k) :
    cstr (r.take k) = some s ↔ cstr r = some s := by
  constructor
  · intro h0
    obtain ⟨h1, rest, h2⟩ := cstr_eq_some h0
    have : r = s ++ 0 :: (rest ++ r.drop k) := by
      rw [← List.cons_append, ← List.append_assoc, ← h2, List.take_append_drop]
    rw [this]
    exact cstr_append_zero s _ h1
  · intro h0
    obtain ⟨h1, rest, h2⟩ := cstr_eq_some h0
    have : r.take k = s ++ 0 :: rest.take (k - s.length - 1) := by
      rw [h2, List.take_append_eq_append_take, List.take_of_length_le (by omega)]
      congr 1
      have : k - s.length = (k - s.length - 1) + 1 := by omega
      rw [this, List.take_succ_cons]
      simp
    rw [this]
    exact cstr_append_zero s _ h1

/-- With the terminator of the expected type in reach, the check on what was
loaded is the check on the store itself. -/
theorem stale_loaded (t : Target) (c : XEEPROMConfigClass) (cells : List Byte) (hc : Inv t c)
    (h : t.sizeofUInt + t.TYPE_MAX_LENGTH + 1 ≤ c._dataSize)
    (hst : c._dataSize ≤ cells.length) :
    Stale t c (loaded cells c._dataSize) ↔
      (fromBytes (cells.take t.sizeofUInt) ≠ c._version ∨
        cstr (cells.drop t.sizeofUInt) ≠ cstr c._type) := by
  obtain ⟨s, ra, h1, h2, h3, h4⟩ := cstr_type hc
  have e1 : (cells.take c._dataSize).take t.sizeofUInt = cells.take t.sizeofUInt := by
    rw [List.take_take, Nat.min_eq_left (by omega)]
  have e2 : (cells.take c._dataSize).drop t.sizeofUInt =
      (cells.drop t.sizeofUInt).take (c._dataSize - t.sizeofUInt) := by
    rw [List.drop_take]
  have e3 := cstr_take (cells.drop t.sizeofUInt) s (c._dataSize - t.sizeofUInt) (by omega)
  unfold Stale
  rw [loaded_eq_take _ _ hst, e1, e2, h4]
  constructor
  · rintro (h0 | h0)
    · exact Or.inl h0
    · exact Or.inr (fun hq => h0 (e3.mpr hq))
  · rintro (h0 | h0)
    · exact Or.inl h0
    · exact Or.inr (fun hq => h0 (e3.mp hq))

theorem construct_cstr {t : Target} {version dataSize : Nat} {type : List Byte}
    {heap : Nat → Byte} {c : XEEPROMConfigClass}
    (h : construct t version type dataSize heap = some c) (s : List Byte)
    (hs : cstr type = some s) :
    c._type = s.take t.TYPE_MAX_LENGTH ++
        List.replicate (t.TYPE_MAX_LENGTH + 1 - (s.take t.TYPE_MAX_LENGTH).length) 0 ∧
      cstr c._type = some (s.take t.TYPE_MAX_LENGTH) := by
  obtain ⟨-, -, -, -, w, hw, hty⟩ := construct_spec h
  obtain ⟨s1, h1, h2, h3, h4⟩ := strncpy_shape hw
  have h5 := h4 s hs
  subst h5
  have h6 : c._type = s.take t.TYPE_MAX_LENGTH ++
      List.replicate (t.TYPE_MAX_LENGTH + 1 - (s.take t.TYPE_MAX_LENGTH).length) 0 := by
    rw [hty, h3, replicate_succ_sub _ _ h2, List.append_assoc]
  refine ⟨h6, ?_⟩
  rw [h6]
  have : t.TYPE_MAX_LENGTH + 1 - (s.take t.TYPE_MAX_LENGTH).length =
      (t.TYPE_MAX_LENGTH - (s.take t.TYPE_MAX_LENGTH).length) + 1 := by omega
  rw [this, List.replicate_succ]
  exact cstr_append_zero _ _ h1

theorem setType_getType (t : Target) (m : Machine) {type w : List Byte}
    (hw : strncpy type t.TYPE_MAX_LENGTH = some w)
    (h : t.sizeofUInt + t.TYPE_MAX_LENGTH + 1 ≤ m.self._data.length) :
    ∃ m1, setType t m type = some m1 ∧
      getType t m1 = w ++ [0] ++ m.self._data.drop (t.sizeofUInt + t.TYPE_MAX_LENGTH + 1) ∧
      m1.self._data.length = m.self._data.length := by
  refine ⟨_, setType_eq t m hw h, ?_, ?_⟩
  · simp only [getType, _getDataPtr, List.append_assoc]
    exact List.drop_left' (by simp; omega)
  · have := strncpy_length hw
    simp only [List.length_append, List.length_take, List.length_drop, this,
      List.length_singleton]
    omega

theorem strncpy_long {type w s : List Byte} {n : Nat} (hw : strncpy type n = some w)
    (hs : cstr type = some s) (hn : n ≤ s.length) : w = s.take n := by
  obtain ⟨s1, -, -, h3, h4⟩ := strncpy_shape hw
  have h5 := h4 s hs
  subst h5
  rw [h3, List.length_take, Nat.min_eq_left hn, Nat.sub_self]
  simp

theorem cstr_isSome_mem {r s : List Byte} (h : cstr r = some s) : (0 : Byte) ∈ r := by
  obtain ⟨-, rest, h2⟩ := cstr_eq_some h
  rw [h2]
  simp

theorem noNul_take {s : List Byte} (h : NoNul s) (n : Nat) : NoNul (s.take n) :=
  fun b hb => h b (List.mem_of_mem_take hb)

theorem drop_take_append_drop (l : List Byte) (a n : Nat) (h1 : a ≤ n) (h2 : n ≤ l.length) :
    (l.take n).drop a ++ l.drop n = l.drop a := by
  have h3 : (l.take n).length = n := by rw [List.length_take]; omega
  have := @List.drop_append_eq_append_drop _ (l.take n) (l.drop n) a
  rw [List.take_append_drop, h3, Nat.sub_eq_zero_of_le h1, List.drop_zero] at this
  exact this.symm

/-- C1. Version mismatch.  An object constructed for `version` and `type`
with a blob large enough for the version and type fields, run on a store of at
least `dataSize` cells whose version field is not the expected version:
`init()` returns, and afterwards `getVersion()` is the expected version, the
string at `getType()` is the expected type (the first `TYPE_MAX_LENGTH`
characters of the string given to the constructor), and the version field of
the store is the expected version too. -/
theorem C1_version_mismatch (t : Target) (version dataSize : Nat) (type : List Byte)
    (heap : Nat → Byte) (c : XEEPROMConfigClass) (E : EEPROMClass) (S : List String)
    (hc : construct t version type dataSize heap = some c)
    (hsz : t.sizeofUInt + t.TYPE_MAX_LENGTH + 1 ≤ dataSize)
    (hst : dataSize ≤ E.cells.length)
    (hv : fromBytes (E.cells.take t.sizeofUInt) ≠ version % t.uintRange) :
    ∃ m, init t ⟨c, E, S⟩ = some m ∧
      getVersion t m = some (version % t.uintRange) ∧
      cstr (getType t m) = cstr c._type ∧
      (∀ s, cstr type = some s → cstr (getType t m) = some (s.take t.TYPE_MAX_LENGTH)) ∧
      fromBytes (m.EEPROM.cells.take t.sizeofUInt) = version % t.uintRange := by
  obtain ⟨hI, hn, hver, -, w, hw, hty⟩ := construct_spec hc
  subst hn
  have hS : Stale t c (loaded E.cells c._dataSize) :=
    (stale_loaded t c E.cells hI hsz hst).mpr (Or.inl (by rw [hver]; exact hv))
  have hi := init_eq t ⟨c, E, S⟩ hI hsz
  rw [if_pos hS] at hi
  have hl : (defaulted t c (loaded E.cells c._dataSize)).length = c._dataSize := by
    rw [defaulted_length t _ _ hI (by rw [loaded_length]; exact hsz), loaded_length]
  have hcells := reinitialized_cells t ⟨c, E, S⟩ hI hsz hst
  have hty1 : cstr (getType t (reinitialized t ⟨c, E, S⟩)) = cstr c._type :=
    cstr_defaulted t c _ hI
  refine ⟨_, hi, ?_, hty1, ?_, ?_⟩
  · rw [getVersion_eq t _ (by simp only [reinitialized]; omega), ← hver]
    exact congrArg some (fromBytes_defaulted t c _ hI)
  · intro s hs
    rw [hty1]
    exact (construct_cstr hc s hs).2
  · rw [hcells, List.take_append_of_le_length (by simp only [reinitialized]; omega), ← hver]
    exact fromBytes_defaulted t c _ hI

/-- Witness of C1: the store holds version 1 and type `"A"`, the object is
constructed for version 2 and type `"A"`. -/
theorem C1_version_mismatch_witness :
    (∃ c, construct demo 2 [65, 0] 32 junk = some c ∧
      demo.sizeofUInt + demo.TYPE_MAX_LENGTH + 1 ≤ 32 ∧
      32 ≤ storeV1A.cells.length ∧
      fromBytes (storeV1A.cells.take demo.sizeofUInt) ≠ 2 % demo.uintRange ∧
      ∃ m, init demo ⟨c, storeV1A, []⟩ = some m ∧
        getVersion demo m = some (2 % demo.uintRange) ∧
        cstr (getType demo m) = cstr c._type ∧
        (∀ s, cstr [65, 0] = some s →
          cstr (getType demo m) = some (s.take demo.TYPE_MAX_LENGTH)) ∧
        fromBytes (m.EEPROM.cells.take demo.sizeofUInt) = 2 % demo.uintRange) :=
  ⟨_, rfl, by decide, by decide, by decide,
    C1_version_mismatch demo 2 32 [65, 0] junk _ storeV1A [] rfl (by decide) (by decide)
      (by decide)⟩

/-- C2. Match.  When the version field of the store is the expected version
and the string in its type field is the expected type, `init()` returns with
the buffer equal to the first `dataSize` cells of the store, payload included;
the cells of the store are unchanged, and the only calls `init()` has made to
the store are `begin` and reads: no write, no commit. -/
theorem C2_match (t : Target) (version dataSize : Nat) (type : List Byte)
    (heap : Nat → Byte) (c : XEEPROMConfigClass) (E : EEPROMClass) (S : List String)
    (hc : construct t version type dataSize heap = some c)
    (hsz : t.sizeofUInt + t.TYPE_MAX_LENGTH + 1 ≤ dataSize)
    (hst : dataSize ≤ E.cells.length)
    (hv : fromBytes (E.cells.take t.sizeofUInt) = version % t.uintRange)
    (hty : cstr (E.cells.drop t.sizeofUInt) = cstr c._type) :
    ∃ m, init t ⟨c, E, S⟩ = some m ∧
      m.self._data = E.cells.take dataSize ∧
      m.EEPROM.cells = E.cells ∧
      m.EEPROM.calls =
        E.calls ++ StoreOp.begin dataSize :: (List.range dataSize).map StoreOp.read ∧
      (∀ op ∈ m.EEPROM.calls.drop E.calls.length,
        op ≠ StoreOp.commit ∧ ∀ a b, op ≠ StoreOp.write a b) := by
  obtain ⟨hI, hn, hver, -, -⟩ := construct_spec hc
  subst hn
  have hS : ¬ Stale t c (loaded E.cells c._dataSize) := by
    rw [stale_loaded t c E.cells hI hsz hst, hver]
    rintro (h | h)
    · exact h hv
    · exact h hty
  have hi := init_eq t ⟨c, E, S⟩ hI hsz
  rw [if_neg hS] at hi
  refine ⟨_, hi, loaded_eq_take _ _ hst, rfl, rfl, ?_⟩
  intro op hop
  simp only [accepted, List.drop_left, List.mem_cons, List.mem_map, List.mem_range] at hop
  rcases hop with rfl | ⟨i, -, rfl⟩
  · exact ⟨by simp, fun a b => by simp⟩
  · exact ⟨by simp, fun a b => by simp⟩

/-- Witness of C2: the store holds version 5, type `"X"` and some payload, the
object is constructed for version 5 and type `"X"`. -/
theorem C2_match_witness :
    (∃ c, construct demo 5 [88, 0] 32 junk = some c ∧
      demo.sizeofUInt + demo.TYPE_MAX_LENGTH + 1 ≤ 32 ∧
      32 ≤ storeV5X.cells.length ∧
      fromBytes (storeV5X.cells.take demo.sizeofUInt) = 5 % demo.uintRange ∧
      cstr (storeV5X.cells.drop demo.sizeofUInt) = cstr c._type ∧
      ∃ m, init demo ⟨c, storeV5X, []⟩ = some m ∧
        m.self._data = storeV5X.cells.take 32 ∧
        m.EEPROM.cells = storeV5X.cells ∧
        m.EEPROM.calls =
          storeV5X.calls ++ StoreOp.begin 32 :: (List.range 32).map StoreOp.read ∧
        (∀ op ∈ m.EEPROM.calls.drop storeV5X.calls.length,
          op ≠ StoreOp.commit ∧ ∀ a b, op ≠ StoreOp.write a b)) :=
  ⟨_, rfl, by decide, by decide, by decide, by decide,
    C2_match demo 5 32 [88, 0] junk _ storeV5X [] rfl (by decide) (by decide)
      (by decide) (by decide)⟩

/-- C3. Type mismatch alone.  When the version field of the store is the
expected version but the string in its type field is not the expected type
(or the field holds no string at all), `init()` takes the branch that a
version mismatch takes: it prints that the EEPROM is not up to date, sets
version and type to the expected values, and writes the whole buffer to the
store, whose first `dataSize` cells then equal the buffer. -/
theorem C3_type_mismatch (t : Target) (version dataSize : Nat) (type : List Byte)
    (heap : Nat → Byte) (c : XEEPROMConfigClass) (E : EEPROMClass) (S : List String)
    (hc : construct t version type dataSize heap = some c)
    (hsz : t.sizeofUInt + t.TYPE_MAX_LENGTH + 1 ≤ dataSize)
    (hst : dataSize ≤ E.cells.length)
    (_hv : fromBytes (E.cells.take t.sizeofUInt) = version % t.uintRange)
    (hty : cstr (E.cells.drop t.sizeofUInt) ≠ cstr c._type) :
    ∃ m, init t ⟨c, E, S⟩ = some m ∧
      getVersion t m = some (version % t.uintRange) ∧
      cstr (getType t m) = cstr c._type ∧
      m.EEPROM.cells.take dataSize = m.self._data ∧
      m.Serial = S ++ ["\n\nEEprom not up to date"] ∧
      m.EEPROM.calls =
        E.calls ++ StoreOp.begin dataSize :: (List.range dataSize).map StoreOp.read ++
          List.zipWith StoreOp.write (List.range dataSize) m.self._data ++
          [StoreOp.commit] := by
  obtain ⟨hI, hn, hver, -, -⟩ := construct_spec hc
  subst hn
  have hS : Stale t c (loaded E.cells c._dataSize) :=
    (stale_loaded t c E.cells hI hsz hst).mpr (Or.inr hty)
  have hi := init_eq t ⟨c, E, S⟩ hI hsz
  rw [if_pos hS] at hi
  have hl : (defaulted t c (loaded E.cells c._dataSize)).length = c._dataSize := by
    rw [defaulted_length t _ _ hI (by rw [loaded_length]; exact hsz), loaded_length]
  have hcells := reinitialized_cells t ⟨c, E, S⟩ hI hsz hst
  refine ⟨_, hi, ?_, cstr_defaulted t c _ hI, ?_, rfl, rfl⟩
  · rw [getVersion_eq t _ (by simp only [reinitialized]; omega), ← hver]
    exact congrArg some (fromBytes_defaulted t c _ hI)
  · rw [hcells]
    exact List.take_left' hl

/-- Witness of C3: the store holds version 5 and type `"Y"`, the object is
constructed for version 5 and type `"X"`. -/
theorem C3_type_mismatch_witness :
    (∃ c, construct demo 5 [88, 0] 32 junk = some c ∧
      demo.sizeofUInt + demo.TYPE_MAX_LENGTH + 1 ≤ 32 ∧
      32 ≤ storeV5Y.cells.length ∧
      fromBytes (storeV5Y.cells.take demo.sizeofUInt) = 5 % demo.uintRange ∧
      cstr (storeV5Y.cells.drop demo.sizeofUInt) ≠ cstr c._type ∧
      ∃ m, init demo ⟨c, storeV5Y, []⟩ = some m ∧
        getVersion demo m = some (5 % demo.uintRange) ∧
        cstr (getType demo m) = cstr c._type ∧
        m.EEPROM.cells.take 32 = m.self._data ∧
        m.Serial = [] ++ ["\n\nEEprom not up to date"] ∧
        m.EEPROM.calls =
          storeV5Y.calls ++ StoreOp.begin 32 :: (List.range 32).map StoreOp.read ++
            List.zipWith StoreOp.write (List.range 32) m.self._data ++
            [StoreOp.commit]) :=
  ⟨_, rfl, by decide, by decide, by decide, by decide,
    C3_type_mismatch demo 5 32 [88, 0] junk _ storeV5Y [] rfl (by decide) (by decide)
      (by decide) (by decide)⟩

/-- C4. Round trip.  For a buffer of `dataSize` bytes and a store of at least
`dataSize` cells, `saveToEeprom()` returns, and an `initFromEeprom()` that
follows it, into any buffer `fresh` of the same size, returns with a buffer
equal byte for byte to the one that was saved. -/
theorem C4_round_trip (m : Machine) (fresh : List Byte)
    (hlen : m.self._data.length = m.self._dataSize)
    (hfresh : fresh.length = m.self._dataSize)
    (hst : m.self._dataSize ≤ m.EEPROM.cells.length) :
    ∃ m1 m2, saveToEeprom m = some m1 ∧
      initFromEeprom { m1 with self := { m1.self with _data := fresh } } = some m2 ∧
      m2.self._data = m.self._data := by
  have h1 := saveToEeprom_eq m hlen
  refine ⟨_, _, h1, initFromEeprom_eq _ hfresh, ?_⟩
  have h2 := writeAll_full m.EEPROM.cells m.self._data (by omega)
  rw [hlen] at h2
  simp only [h2]
  rw [loaded_eq_take _ _ (by simp; omega)]
  exact List.take_left' hlen

/-- Witness of C4: eight bytes saved to a store of ten cells and loaded back
into a zeroed buffer. -/
theorem C4_round_trip_witness :
    smallMachine.self._data.length = smallMachine.self._dataSize ∧
    (List.replicate 8 (0 : Byte)).length = smallMachine.self._dataSize ∧
    smallMachine.self._dataSize ≤ smallMachine.EEPROM.cells.length ∧
    ∃ m1 m2, saveToEeprom smallMachine = some m1 ∧
      initFromEeprom { m1 with self := { m1.self with _data := List.replicate 8 0 } } =
        some m2 ∧
      m2.self._data = smallMachine.self._data :=
  ⟨by decide, by decide, by decide,
    C4_round_trip smallMachine (List.replicate 8 0) (by decide) (by decide) (by decide)⟩

/-- C5. Idempotence of `init`.  On a store of at least `dataSize` cells,
`init()` returns, and a second `init()` right after it returns with the same
buffer; the second call prints that the EEPROM is up to date, leaves the cells
of the store as they are, and calls the store for `begin` and reads only. -/
theorem C5_init_idempotent (t : Target) (version dataSize : Nat) (type : List Byte)
    (heap : Nat → Byte) (c : XEEPROMConfigClass) (E : EEPROMClass) (S : List String)
    (hc : construct t version type dataSize heap = some c)
    (hsz : t.sizeofUInt + t.TYPE_MAX_LENGTH + 1 ≤ dataSize)
    (hst : dataSize ≤ E.cells.length) :
    ∃ m1 m2, init t ⟨c, E, S⟩ = some m1 ∧ init t m1 = some m2 ∧
      m2.self._data = m1.self._data ∧
      m2.Serial = m1.Serial ++ ["\n\nEEprom is up to date."] ∧
      m2.EEPROM.cells = m1.EEPROM.cells ∧
      m2.EEPROM.calls =
        m1.EEPROM.calls ++ StoreOp.begin dataSize :: (List.range dataSize).map StoreOp.read := by
  obtain ⟨hI, hn, -, -, -⟩ := construct_spec hc
  subst hn
  have hi := init_eq t ⟨c, E, S⟩ hI hsz
  by_cases hS : Stale t c (loaded E.cells c._dataSize)
  · rw [if_pos hS] at hi
    have hI1 : Inv t (reinitialized t ⟨c, E, S⟩).self :=
      ⟨by
        simp only [reinitialized]
        rw [defaulted_length t _ _ hI (by rw [loaded_length]; exact hsz), loaded_length],
        hI.version_lt, hI.type_shape⟩
    have hi2 := init_eq t (reinitialized t ⟨c, E, S⟩) hI1 hsz
    have hcells := reinitialized_cells t ⟨c, E, S⟩ hI hsz hst
    have hld : loaded (reinitialized t ⟨c, E, S⟩).EEPROM.cells c._dataSize =
        (reinitialized t ⟨c, E, S⟩).self._data := by
      have hdl : (reinitialized t ⟨c, E, S⟩).self._data.length = c._dataSize :=
        hI1.data_length
      rw [loaded_eq_take _ _ (by rw [hcells, List.length_append, hdl]; omega), hcells]
      exact List.take_left' hdl
    have hS2 : ¬ Stale t (reinitialized t ⟨c, E, S⟩).self
        (loaded (reinitialized t ⟨c, E, S⟩).EEPROM.cells
          (reinitialized t ⟨c, E, S⟩).self._dataSize) := by
      show ¬ Stale t (reinitialized t ⟨c, E, S⟩).self
        (loaded (reinitialized t ⟨c, E, S⟩).EEPROM.cells c._dataSize)
      rw [hld]
      exact not_stale_defaulted t c _ hI
    rw [if_neg hS2] at hi2
    exact ⟨_, _, hi, hi2, hld, rfl, rfl, rfl⟩
  · rw [if_neg hS] at hi
    have hI1 : Inv t (accepted ⟨c, E, S⟩).self :=
      ⟨loaded_length _ _, hI.version_lt, hI.type_shape⟩
    have hi2 := init_eq t (accepted ⟨c, E, S⟩) hI1 hsz
    have hS2 : ¬ Stale t (accepted ⟨c, E, S⟩).self
        (loaded (accepted ⟨c, E, S⟩).EEPROM.cells (accepted ⟨c, E, S⟩).self._dataSize) := hS
    rw [if_neg hS2] at hi2
    exact ⟨_, _, hi, hi2, rfl, rfl, rfl, rfl⟩

/-- Witness of C5: the object for version 2 and type `"A"` on the store that
holds version 1; the first `init()` rewrites the store, the second finds it up
to date. -/
theorem C5_init_idempotent_witness :
    (∃ c, construct demo 2 [65, 0] 32 junk = some c ∧
      demo.sizeofUInt + demo.TYPE_MAX_LENGTH + 1 ≤ 32 ∧
      32 ≤ storeV1A.cells.length ∧
      ∃ m1 m2, init demo ⟨c, storeV1A, []⟩ = some m1 ∧ init demo m1 = some m2 ∧
        m2.self._data = m1.self._data ∧
        m2.Serial = m1.Serial ++ ["\n\nEEprom is up to date."] ∧
        m2.EEPROM.cells = m1.EEPROM.cells ∧
        m2.EEPROM.calls =
          m1.EEPROM.calls ++ StoreOp.begin 32 :: (List.range 32).map StoreOp.read) :=
  ⟨_, rfl, by decide, by decide,
    C5_init_idempotent demo 2 32 [65, 0] junk _ storeV1A [] rfl (by decide) (by decide)⟩

/-- C6. Type truncation.  Let `type` point to a string `s` of more than
`TYPE_MAX_LENGTH` characters.  The constructor returns and leaves in `_type`
the first `TYPE_MAX_LENGTH` characters of `s` followed by the terminator at
index `TYPE_MAX_LENGTH`; `setType(type)` returns and leaves the same
`TYPE_MAX_LENGTH + 1` bytes where `getType()` points.  In both cases the string
read back is the first `TYPE_MAX_LENGTH` characters of `s`, which has exactly
`TYPE_MAX_LENGTH` characters. -/
theorem C6_type_truncation (t : Target) (version dataSize : Nat) (type s : List Byte)
    (heap : Nat → Byte) (m : Machine)
    (hs : cstr type = some s)
    (hlong : t.TYPE_MAX_LENGTH < s.length)
    (hbuf : t.sizeofUInt + t.TYPE_MAX_LENGTH + 1 ≤ m.self._data.length) :
    (∃ c, construct t version type dataSize heap = some c ∧
      c._type = s.take t.TYPE_MAX_LENGTH ++ [0] ∧
      cstr c._type = some (s.take t.TYPE_MAX_LENGTH)) ∧
    (∃ m1, setType t m type = some m1 ∧
      (getType t m1).take (t.TYPE_MAX_LENGTH + 1) = s.take t.TYPE_MAX_LENGTH ++ [0] ∧
      cstr (getType t m1) = some (s.take t.TYPE_MAX_LENGTH)) ∧
    (s.take t.TYPE_MAX_LENGTH).length = t.TYPE_MAX_LENGTH := by
  obtain ⟨w, hw⟩ := strncpy_isSome_of_mem t.TYPE_MAX_LENGTH (cstr_isSome_mem hs)
  have hw1 : w = s.take t.TYPE_MAX_LENGTH := strncpy_long hw hs (by omega)
  have hlen : (s.take t.TYPE_MAX_LENGTH).length = t.TYPE_MAX_LENGTH := by
    rw [List.length_take]
    omega
  have hnn : NoNul (s.take t.TYPE_MAX_LENGTH) := noNul_take (cstr_eq_some hs).1 _
  refine ⟨⟨_, construct_eq heap hw, by rw [hw1], ?_⟩, ?_, hlen⟩
  · rw [hw1]
    exact cstr_append_zero _ [] hnn
  · obtain ⟨m1, h1, h2, -⟩ := setType_getType t m hw hbuf
    refine ⟨m1, h1, ?_, ?_⟩
    · rw [h2, hw1]
      exact List.take_left' (by rw [List.length_append, hlen]; rfl)
    · rw [h2, hw1, List.append_assoc, List.singleton_append]
      exact cstr_append_zero _ _ hnn

/-- Witness of C6: a string of 23 characters given to the constructor and to
`setType` where `TYPE_MAX_LENGTH` is 20. -/
theorem C6_type_truncation_witness :
    cstr longType = some (longType.take 23) ∧
    demo.TYPE_MAX_LENGTH < (longType.take 23).length ∧
    demo.sizeofUInt + demo.TYPE_MAX_LENGTH + 1 ≤ blankMachine.self._data.length ∧
    ((∃ c, construct demo 1 longType 32 junk = some c ∧
      c._type = (longType.take 23).take demo.TYPE_MAX_LENGTH ++ [0] ∧
      cstr c._type = some ((longType.take 23).take demo.TYPE_MAX_LENGTH)) ∧
    (∃ m1, setType demo blankMachine longType = some m1 ∧
      (getType demo m1).take (demo.TYPE_MAX_LENGTH + 1) =
        (longType.take 23).take demo.TYPE_MAX_LENGTH ++ [0] ∧
      cstr (getType demo m1) = some ((longType.take 23).take demo.TYPE_MAX_LENGTH)) ∧
    ((longType.take 23).take demo.TYPE_MAX_LENGTH).length = demo.TYPE_MAX_LENGTH) :=
  ⟨by decide, by decide, by decide,
    C6_type_truncation demo 1 32 longType (longType.take 23) junk blankMachine
      (by decide) (by decide) (by decide)⟩

/-- C7. Payload frame on mismatch.  When the store fails the check of
`init()` (its version field is not the expected version, or the string in its
type field is not the expected type), `init()` returns, and past the version
and type fields, from offset `sizeof(version) + TYPE_MAX_LENGTH + 1` on, the
buffer holds the bytes loaded from the store at the same offsets, and the
store holds the cells it held before; the store has as many cells as
before. -/
theorem C7_payload_frame (t : Target) (version dataSize : Nat) (type : List Byte)
    (heap : Nat → Byte) (c : XEEPROMConfigClass) (E : EEPROMClass) (S : List String)
    (hc : construct t version type dataSize heap = some c)
    (hsz : t.sizeofUInt + t.TYPE_MAX_LENGTH + 1 ≤ dataSize)
    (hst : dataSize ≤ E.cells.length)
    (hfail : fromBytes (E.cells.take t.sizeofUInt) ≠ version % t.uintRange ∨
      cstr (E.cells.drop t.sizeofUInt) ≠ cstr c._type) :
    ∃ m, init t ⟨c, E, S⟩ = some m ∧
      m.self._data.drop (t.sizeofUInt + t.TYPE_MAX_LENGTH + 1) =
        (E.cells.take dataSize).drop (t.sizeofUInt + t.TYPE_MAX_LENGTH + 1) ∧
      m.EEPROM.cells.drop (t.sizeofUInt + t.TYPE_MAX_LENGTH + 1) =
        E.cells.drop (t.sizeofUInt + t.TYPE_MAX_LENGTH + 1) ∧
      m.EEPROM.cells.length = E.cells.length := by
  obtain ⟨hI, hn, hver, -, -⟩ := construct_spec hc
  subst hn
  have hS : Stale t c (loaded E.cells c._dataSize) :=
    (stale_loaded t c E.cells hI hsz hst).mpr (by rw [hver]; exact hfail)
  have hi := init_eq t ⟨c, E, S⟩ hI hsz
  rw [if_pos hS] at hi
  have hl : (defaulted t c (loaded E.cells c._dataSize)).length = c._dataSize := by
    rw [defaulted_length t _ _ hI (by rw [loaded_length]; exact hsz), loaded_length]
  have hcells := reinitialized_cells t ⟨c, E, S⟩ hI hsz hst
  have hpay : (reinitialized t ⟨c, E, S⟩).self._data.drop
      (t.sizeofUInt + t.TYPE_MAX_LENGTH + 1) =
      (E.cells.take c._dataSize).drop (t.sizeofUInt + t.TYPE_MAX_LENGTH + 1) := by
    rw [← loaded_eq_take _ _ hst]
    exact defaulted_payload t c _ hI
  refine ⟨_, hi, hpay, ?_, ?_⟩
  · rw [hcells, List.drop_append_of_le_length (by
      show _ ≤ (defaulted t c (loaded E.cells c._dataSize)).length
      omega), hpay]
    exact drop_take_append_drop E.cells _ _ hsz hst
  · simp only [reinitialized, writeAll_length]

/-- Witness of C7: the object for version 2 and type `"A"` on the store that
holds version 1. -/
theorem C7_payload_frame_witness :
    (∃ c, construct demo 2 [65, 0] 32 junk = some c ∧
      demo.sizeofUInt + demo.TYPE_MAX_LENGTH + 1 ≤ 32 ∧
      32 ≤ storeV1A.cells.length ∧
      (fromBytes (storeV1A.cells.take demo.sizeofUInt) ≠ 2 % demo.uintRange ∨
        cstr (storeV1A.cells.drop demo.sizeofUInt) ≠ cstr c._type) ∧
      ∃ m, init demo ⟨c, storeV1A, []⟩ = some m ∧
        m.self._data.drop (demo.sizeofUInt + demo.TYPE_MAX_LENGTH + 1) =
          (storeV1A.cells.take 32).drop (demo.sizeofUInt + demo.TYPE_MAX_LENGTH + 1) ∧
        m.EEPROM.cells.drop (demo.sizeofUInt + demo.TYPE_MAX_LENGTH + 1) =
          storeV1A.cells.drop (demo.sizeofUInt + demo.TYPE_MAX_LENGTH + 1) ∧
        m.EEPROM.cells.length = storeV1A.cells.length) :=
  ⟨_, rfl, by decide, by decide, by decide,
    C7_payload_frame demo 2 32 [65, 0] junk _ storeV1A [] rfl (by decide) (by decide)
      (by decide)⟩

theorem terminated_of_cstr {t : Target} {r s : List Byte} (h : cstr r = some s)
    (hs : s.length ≤ t.TYPE_MAX_LENGTH) : Terminated t r := by
  simp only [Terminated, h]
  exact hs

theorem cstr_padded (s rest : List Byte) (k : Nat) (hs : NoNul s) :
    cstr (s ++ List.replicate k 0 ++ [0] ++ rest) = some s := by
  cases k with
  | zero =>
    simp only [List.replicate_zero, List.append_nil, List.append_assoc, List.singleton_append]
    exact cstr_append_zero s rest hs
  | succ k =>
    simp only [List.replicate_succ, List.append_assoc, List.cons_append]
    exact cstr_append_zero s _ hs

/-- C8. Type termination.  For a string of any length given to the
constructor or to `setType`, and for any content of the store: the expected
type left by the constructor, and the type field of the buffer after
`setType`, after `initFromDefault()` and after `init()`, each hold a string of
at most `TYPE_MAX_LENGTH` characters, so a terminator within the
`TYPE_MAX_LENGTH + 1` bytes of the field; and each of the four returns. -/
theorem C8_type_terminated (t : Target) (version dataSize : Nat) (type src : List Byte)
    (heap : Nat → Byte) (m : Machine) (E : EEPROMClass) (S : List String)
    (htype : (0 : Byte) ∈ type) (hsrc : (0 : Byte) ∈ src)
    (hbuf : t.sizeofUInt + t.TYPE_MAX_LENGTH + 1 ≤ m.self._data.length)
    (hsz : t.sizeofUInt + t.TYPE_MAX_LENGTH + 1 ≤ dataSize) :
    ∃ c, construct t version type dataSize heap = some c ∧
      Terminated t c._type ∧
      (∃ m1, setType t m src = some m1 ∧ Terminated t (getType t m1)) ∧
      (∃ m2, initFromDefault t ⟨c, E, S⟩ = some m2 ∧ Terminated t (getType t m2)) ∧
      (∃ m3, init t ⟨c, E, S⟩ = some m3 ∧ Terminated t (getType t m3)) := by
  obtain ⟨c, hc⟩ := construct_isSome t version dataSize heap htype
  obtain ⟨hI, hn, -, -, -⟩ := construct_spec hc
  subst hn
  obtain ⟨s, ra, h1, h2, h3, h4⟩ := cstr_type hI
  refine ⟨c, hc, terminated_of_cstr h4 h2, ?_, ?_, ?_⟩
  · obtain ⟨w, hw⟩ := strncpy_isSome_of_mem t.TYPE_MAX_LENGTH hsrc
    obtain ⟨m1, e1, e2, -⟩ := setType_getType t m hw hbuf
    obtain ⟨s1, g1, g2, g3, -⟩ := strncpy_shape hw
    refine ⟨m1, e1, terminated_of_cstr ?_ g2⟩
    rw [e2, g3]
    exact cstr_padded s1 _ _ g1
  · refine ⟨_, initFromDefault_eq t ⟨c, E, S⟩ hI hsz, terminated_of_cstr ?_ h2⟩
    rw [← h4]
    exact cstr_defaulted t c _ hI
  · have hi := init_eq t ⟨c, E, S⟩ hI hsz
    by_cases hS : Stale t c (loaded E.cells c._dataSize)
    · rw [if_pos hS] at hi
      refine ⟨_, hi, terminated_of_cstr ?_ h2⟩
      rw [← h4]
      exact cstr_defaulted t c _ hI
    · rw [if_neg hS] at hi
      refine ⟨_, hi, terminated_of_cstr ?_ h2⟩
      rw [← h4]
      by_contra hne
      exact hS (Or.inr hne)

/-- Witness of C8: a string of 23 characters given to the constructor and to
`setType`, and a store none of whose cells holds a zero byte. -/
theorem C8_type_terminated_witness :
    (0 : Byte) ∈ longType ∧
    demo.sizeofUInt + demo.TYPE_MAX_LENGTH + 1 ≤ blankMachine.self._data.length ∧
    demo.sizeofUInt + demo.TYPE_MAX_LENGTH + 1 ≤ 32 ∧
    (0 : Byte) ∉ blankStore.cells ∧
    ∃ c, construct demo 1 longType 32 junk = some c ∧
      Terminated demo c._type ∧
      (∃ m1, setType demo blankMachine longType = some m1 ∧
        Terminated demo (getType demo m1)) ∧
      (∃ m2, initFromDefault demo ⟨c, blankStore, []⟩ = some m2 ∧
        Terminated demo (getType demo m2)) ∧
      (∃ m3, init demo ⟨c, blankStore, []⟩ = some m3 ∧
        Terminated demo (getType demo m3)) :=
  ⟨by decide, by decide, by decide, by decide,
    C8_type_terminated demo 1 32 longType longType junk blankMachine blankStore []
      (by decide) (by decide) (by decide) (by decide)⟩

/-! ## Sequences of method calls -/

theorem initFromEeprom_size {m m1 : Machine} (h : initFromEeprom m = some m1) :
    m1.self._dataSize = m.self._dataSize := by
  simp only [initFromEeprom, Option.map_eq_some'] at h
  obtain ⟨r, -, rfl⟩ := h
  rfl

theorem saveToEeprom_size {m m1 : Machine} (h : saveToEeprom m = some m1) :
    m1.self._dataSize = m.self._dataSize := by
  simp only [saveToEeprom, Option.map_eq_some'] at h
  obtain ⟨r, -, rfl⟩ := h
  rfl

theorem setVersion_size {t : Target} {m m1 : Machine} {v : Nat}
    (h : setVersion t m v = some m1) : m1.self._dataSize = m.self._dataSize := by
  simp only [setVersion, Option.map_eq_some'] at h
  obtain ⟨r, -, rfl⟩ := h
  rfl

theorem setType_size {t : Target} {m m1 : Machine} {ty : List Byte}
    (h : setType t m ty = some m1) : m1.self._dataSize = m.self._dataSize := by
  simp only [setType, Option.bind_eq_some, Option.map_eq_some'] at h
  obtain ⟨w, -, d, -, d1, -, rfl⟩ := h
  rfl

theorem initFromDefault_size {t : Target} {m m1 : Machine}
    (h : initFromDefault t m = some m1) : m1.self._dataSize = m.self._dataSize := by
  simp only [initFromDefault, Option.bind_eq_some] at h
  obtain ⟨m2, h1, h2⟩ := h
  rw [setType_size h2, setVersion_size h1]

theorem init_size {t : Target} {m m1 : Machine} (h : init t m = some m1) :
    m1.self._dataSize = m.self._dataSize := by
  simp only [init, Option.bind_eq_some] at h
  obtain ⟨m2, h1, stale, -, h3⟩ := h
  split at h3
  · simp only [Option.bind_eq_some] at h3
    obtain ⟨m3, h4, h5⟩ := h3
    rw [saveToEeprom_size h5, initFromDefault_size h4]
    show m2.self._dataSize = _
    exact initFromEeprom_size h1
  · simp only [Option.some.injEq] at h3
    subst h3
    show m2.self._dataSize = _
    exact initFromEeprom_size h1

theorem run_size {t : Target} {m m1 : Machine} {k : Call} (h : k.run t m = some m1) :
    m1.self._dataSize = m.self._dataSize := by
  cases k with
  | init => exact init_size h
  | initFromEeprom => exact initFromEeprom_size h
  | saveToEeprom => exact saveToEeprom_size h
  | saveToEepromTo stop =>
    simp only [Call.run, Option.some.injEq] at h
    subst h
    rfl
  | saveToEepromFromTo start stop =>
    simp only [Call.run, Option.some.injEq] at h
    subst h
    rfl
  | setVersion v => exact setVersion_size h
  | setType ty => exact setType_size h
  | initFromDefault => exact initFromDefault_size h

theorem runAll_size {t : Target} {ks : List Call} {m m1 : Machine}
    (h : runAll t ks m = some m1) : m1.self._dataSize = m.self._dataSize := by
  induction ks generalizing m with
  | nil =>
    simp only [runAll, Option.some.injEq] at h
    subst h
    rfl
  | cons k ks ih =>
    simp only [runAll, Option.bind_eq_some] at h
    obtain ⟨m2, h1, h2⟩ := h
    rw [ih h2, run_size h1]

theorem run_ok {t : Target} {m : Machine} {k : Call} (hI : Inv t m.self)
    (hsz : t.sizeofUInt + t.TYPE_MAX_LENGTH + 1 ≤ m.self._dataSize) (hk : k.WellFormed) :
    ∃ m1, k.run t m = some m1 ∧ Inv t m1.self := by
  have hl := hI.data_length
  cases k with
  | init =>
    refine ⟨_, init_eq t m hI hsz, ?_⟩
    split
    · exact ⟨by
        simp only [reinitialized]
        rw [defaulted_length t _ _ hI (by rw [loaded_length]; exact hsz), loaded_length],
        hI.version_lt, hI.type_shape⟩
    · exact ⟨loaded_length _ _, hI.version_lt, hI.type_shape⟩
  | initFromEeprom =>
    exact ⟨_, initFromEeprom_eq m hl, loaded_length _ _, hI.version_lt, hI.type_shape⟩
  | saveToEeprom => exact ⟨_, saveToEeprom_eq m hl, hI⟩
  | saveToEepromTo stop => exact ⟨_, rfl, hI⟩
  | saveToEepromFromTo start stop => exact ⟨_, rfl, hI⟩
  | setVersion v =>
    refine ⟨_, setVersion_eq t m v (by omega), ?_, hI.version_lt, hI.type_shape⟩
    simp only [List.length_append, toBytes_length, List.length_drop]
    omega
  | setType ty =>
    obtain ⟨w, hw⟩ := strncpy_isSome_of_mem t.TYPE_MAX_LENGTH hk
    refine ⟨_, setType_eq t m hw (by omega), ?_, hI.version_lt, hI.type_shape⟩
    have := strncpy_length hw
    simp only [List.length_append, List.length_take, List.length_drop, this,
      List.length_singleton]
    omega
  | initFromDefault =>
    refine ⟨_, initFromDefault_eq t m hI hsz, ?_, hI.version_lt, hI.type_shape⟩
    show (defaulted t m.self m.self._data).length = m.self._dataSize
    rw [defaulted_length t _ _ hI (by omega), hl]

theorem runAll_ok {t : Target} {ks : List Call} {m : Machine} (hI : Inv t m.self)
    (hsz : t.sizeofUInt + t.TYPE_MAX_LENGTH + 1 ≤ m.self._dataSize)
    (hks : ∀ k ∈ ks, k.WellFormed) :
    ∃ m1, runAll t ks m = some m1 := by
  induction ks generalizing m with
  | nil => exact ⟨m, rfl⟩
  | cons k ks ih =>
    obtain ⟨m2, h1, h2⟩ := run_ok hI hsz (hks k (List.mem_cons_self _ _))
    obtain ⟨m1, h3⟩ := ih h2 (by rw [run_size h1]; exact hsz)
      (fun k1 hk1 => hks k1 (List.mem_cons_of_mem _ hk1))
    exact ⟨m1, by simp only [runAll, h1, Option.some_bind, h3]⟩

/-- C9. Fixed size.  For any version, any size and any terminated string
given to it, the constructor returns, and right after it `getDataSize()` is
the size that was given.  It is so again after any sequence of calls of
`init`, `initFromEeprom`, the three `saveToEeprom`, `setVersion`, `setType` and
`initFromDefault` that returns; and the sequence does return when the blob has
room for the version and type fields and every `setType` is given a
terminated string. -/
theorem C9_fixed_size (t : Target) (version dataSize : Nat) (type : List Byte)
    (heap : Nat → Byte) (E : EEPROMClass) (S : List String) (calls : List Call)
    (htype : (0 : Byte) ∈ type) :
    ∃ c, construct t version type dataSize heap = some c ∧
      getDataSize ⟨c, E, S⟩ = dataSize ∧
      (∀ m, runAll t calls ⟨c, E, S⟩ = some m → getDataSize m = dataSize) ∧
      (t.sizeofUInt + t.TYPE_MAX_LENGTH + 1 ≤ dataSize → (∀ k ∈ calls, k.WellFormed) →
        ∃ m, runAll t calls ⟨c, E, S⟩ = some m) := by
  obtain ⟨c, hc⟩ := construct_isSome t version dataSize heap htype
  obtain ⟨hI, hn, -, -, -⟩ := construct_spec hc
  refine ⟨c, hc, hn, ?_, ?_⟩
  · intro m hm
    show m.self._dataSize = dataSize
    rw [runAll_size hm]
    exact hn
  · intro hsz hks
    exact runAll_ok hI (by rw [hn]; exact hsz) hks

/-- Witness of C9: a sequence of nine calls, every method among them, made on
an object of 32 bytes; it returns, and the size is still 32. -/
theorem C9_fixed_size_witness :
    (0 : Byte) ∈ ([65, 0] : List Byte) ∧
    demo.sizeofUInt + demo.TYPE_MAX_LENGTH + 1 ≤ 32 ∧
    (∀ k ∈ everyCall, k.WellFormed) ∧
    ∃ c, construct demo 2 [65, 0] 32 junk = some c ∧
      getDataSize ⟨c, storeV1A, []⟩ = 32 ∧
      ∃ m, runAll demo everyCall ⟨c, storeV1A, []⟩ = some m ∧ getDataSize m = 32 := by
  obtain ⟨c, h1, h2, h3, h4⟩ :=
    C9_fixed_size demo 2 32 [65, 0] junk storeV1A [] everyCall (by decide)
  obtain ⟨m, hm⟩ := h4 (by decide) (by decide)
  exact ⟨by decide, by decide, by decide, c, h1, h2, m, hm, h3 m hm⟩

/-- C10. Store access protocol.  On an object whose buffer has `dataSize`
bytes, `initFromEeprom()` returns having made, after the `begin(dataSize)`
that opens it, exactly `dataSize` calls to the store: the reads of the
addresses `0, 1, ..., dataSize - 1`, in this order.  `saveToEeprom()` returns
having made exactly `dataSize + 1` calls: the writes of the addresses
`0, 1, ..., dataSize - 1`, in this order, the write of address `i` carrying
byte `i` of the buffer, and then one commit. -/
theorem C10_store_protocol (m : Machine)
    (hlen : m.self._data.length = m.self._dataSize) :
    (∃ m1, initFromEeprom m = some m1 ∧
      m1.EEPROM.calls = m.EEPROM.calls ++ StoreOp.begin m.self._dataSize ::
        (List.range m.self._dataSize).map StoreOp.read) ∧
    (∃ m2, saveToEeprom m = some m2 ∧
      m2.EEPROM.calls = m.EEPROM.calls ++
        (List.range m.self._dataSize).map
          (fun i => StoreOp.write i (m.self._data.getD i 0)) ++ [StoreOp.commit]) := by
  refine ⟨⟨_, initFromEeprom_eq m hlen, rfl⟩, _, saveToEeprom_eq m hlen, ?_⟩
  show m.EEPROM.calls ++ List.zipWith StoreOp.write (List.range m.self._dataSize) m.self._data
      ++ [StoreOp.commit] = _
  congr 2
  apply List.ext_getElem
  · simp [hlen]
  · intro i h1 h2
    simp only [List.length_map, List.length_range] at h2
    simp [List.getD_eq_getElem?_getD, List.getElem?_eq_getElem (by omega : i < m.self._data.length)]

/-- Witness of C10: the object with a buffer of eight bytes. -/
theorem C10_store_protocol_witness :
    smallMachine.self._data.length = smallMachine.self._dataSize ∧
    (∃ m1, initFromEeprom smallMachine = some m1 ∧
      m1.EEPROM.calls = smallMachine.EEPROM.calls ++ StoreOp.begin 8 ::
        (List.range 8).map StoreOp.read) ∧
    (∃ m2, saveToEeprom smallMachine = some m2 ∧
      m2.EEPROM.calls = smallMachine.EEPROM.calls ++
        (List.range 8).map
          (fun i => StoreOp.write i (smallMachine.self._data.getD i 0)) ++
        [StoreOp.commit]) :=
  ⟨by decide, C10_store_protocol smallMachine (by decide)⟩

/-! ## The accessors leave the rest of the machine alone -/

theorem take_append_drop_length (a b c : List Byte) :
    (a ++ b ++ c).drop (a.length + b.length) = c := by
  rw [← List.length_append]
  exact List.drop_left' rfl

/-- C11. Version accessor round trip.  On a buffer that has room for an
`unsigned int`, and for `v` in the range of `unsigned int`: `setVersion(v)`
returns, `getVersion()` after it returns `v`, the buffer keeps its length and
every byte past the first `sizeof(unsigned int)` ones (type field and
payload), the other members of the object are as before, and neither the
store (cells and calls) nor the serial line is touched. -/
theorem C11_version_round_trip (t : Target) (m : Machine) (v : Nat)
    (hv : v < t.uintRange)
    (hbuf : t.sizeofUInt ≤ m.self._data.length) :
    ∃ m1, setVersion t m v = some m1 ∧
      getVersion t m1 = some v ∧
      m1.self._data.drop t.sizeofUInt = m.self._data.drop t.sizeofUInt ∧
      m1.self._data.length = m.self._data.length ∧
      m1.self._version = m.self._version ∧ m1.self._type = m.self._type ∧
      m1.self._dataSize = m.self._dataSize ∧
      m1.EEPROM = m.EEPROM ∧ m1.Serial = m.Serial := by
  have hlen : (toBytes t.sizeofUInt v ++ m.self._data.drop t.sizeofUInt).length =
      m.self._data.length := by
    simp only [List.length_append, toBytes_length, List.length_drop]
    omega
  refine ⟨_, setVersion_eq t m v hbuf, ?_, ?_, hlen, rfl, rfl, rfl, rfl, rfl⟩
  · rw [getVersion_eq t _ (by
      show t.sizeofUInt ≤ (toBytes t.sizeofUInt v ++ m.self._data.drop t.sizeofUInt).length
      omega)]
    show some (fromBytes ((toBytes t.sizeofUInt v ++ m.self._data.drop t.sizeofUInt).take
      t.sizeofUInt)) = some v
    rw [List.take_left' (toBytes_length _ _), fromBytes_toBytes]
    exact congrArg some (Nat.mod_eq_of_lt hv)
  · exact List.drop_left' (toBytes_length _ _)

/-- Witness of C11: version `0x01020304` set in a buffer that holds `0xFF`
everywhere. -/
theorem C11_version_round_trip_witness :
    16909060 < demo.uintRange ∧
    demo.sizeofUInt ≤ dirtyMachine.self._data.length ∧
    ∃ m1, setVersion demo dirtyMachine 16909060 = some m1 ∧
      getVersion demo m1 = some 16909060 ∧
      m1.self._data.drop demo.sizeofUInt = dirtyMachine.self._data.drop demo.sizeofUInt ∧
      m1.self._data.length = dirtyMachine.self._data.length ∧
      m1.self._version = dirtyMachine.self._version ∧
      m1.self._type = dirtyMachine.self._type ∧
      m1.self._dataSize = dirtyMachine.self._dataSize ∧
      m1.EEPROM = dirtyMachine.EEPROM ∧ m1.Serial = dirtyMachine.Serial :=
  ⟨by decide, by decide,
    C11_version_round_trip demo dirtyMachine 16909060 (by decide) (by decide)⟩

/-- C12. Type accessor round trip.  On a buffer that has room for the version
and type fields, and for `type` pointing to a string `s` of at most
`TYPE_MAX_LENGTH` characters: `setType(type)` returns, and the string read
where `getType()` points is `s`.  The pointer `getType()` returns is the
buffer from offset `sizeof(unsigned int)` on, whatever the store holds:
putting any other `EEPROM` in place of the present one gives the same pointer.
The store and the serial line are not touched. -/
theorem C12_type_round_trip (t : Target) (m : Machine) (type s : List Byte)
    (hs : cstr type = some s)
    (hshort : s.length ≤ t.TYPE_MAX_LENGTH)
    (hbuf : t.sizeofUInt + t.TYPE_MAX_LENGTH + 1 ≤ m.self._data.length) :
    ∃ m1, setType t m type = some m1 ∧
      cstr (getType t m1) = some s ∧
      getType t m1 = m1.self._data.drop t.sizeofUInt ∧
      (∀ E : EEPROMClass, getType t { m1 with EEPROM := E } = getType t m1) ∧
      m1.EEPROM = m.EEPROM ∧ m1.Serial = m.Serial := by
  obtain ⟨w, hw⟩ := strncpy_isSome_of_mem t.TYPE_MAX_LENGTH (cstr_isSome_mem hs)
  obtain ⟨s1, g1, -, g3, g4⟩ := strncpy_shape hw
  have g5 : s1 = s := by rw [g4 s hs, List.take_of_length_le hshort]
  subst g5
  obtain ⟨m1, e1, e2, -⟩ := setType_getType t m hw hbuf
  have e3 := setType_eq t m hw hbuf
  rw [e1] at e3
  refine ⟨m1, e1, ?_, rfl, fun E => rfl, ?_, ?_⟩
  · rw [e2, g3]
    exact cstr_padded s1 _ _ g1
  · simp only [Option.some.injEq] at e3
    rw [e3]
  · simp only [Option.some.injEq] at e3
    rw [e3]

/-- Witness of C12: the type `"AB"` set in a buffer that holds `0xFF`
everywhere, next to a store that holds `0x11` everywhere. -/
theorem C12_type_round_trip_witness :
    cstr [65, 66, 0] = some [65, 66] ∧
    ([65, 66] : List Byte).length ≤ demo.TYPE_MAX_LENGTH ∧
    demo.sizeofUInt + demo.TYPE_MAX_LENGTH + 1 ≤ dirtyMachine.self._data.length ∧
    ∃ m1, setType demo dirtyMachine [65, 66, 0] = some m1 ∧
      cstr (getType demo m1) = some [65, 66] ∧
      getType demo m1 = m1.self._data.drop demo.sizeofUInt ∧
      (∀ E : EEPROMClass, getType demo { m1 with EEPROM := E } = getType demo m1) ∧
      m1.EEPROM = dirtyMachine.EEPROM ∧ m1.Serial = dirtyMachine.Serial :=
  ⟨by decide, by decide, by decide,
    C12_type_round_trip demo dirtyMachine [65, 66, 0] [65, 66] (by decide) (by decide)
      (by decide)⟩

/-- C13. The two range saves are stubs.  For every machine and every pointer
argument, `saveToEeprom(to)` and `saveToEeprom(from, to)` leave the object
(buffer included) and the `EEPROM` (its cells and its calls, so no write and
no commit) as they were; all either does is print one line. -/
theorem C13_range_saves_are_stubs (m : Machine) (start stop : Nat) :
    (saveToEepromTo m stop).self = m.self ∧
    (saveToEepromTo m stop).EEPROM = m.EEPROM ∧
    (saveToEepromTo m stop).Serial =
      m.Serial ++ ["XEEPROMConfigClass::saveToEeprom(to) is not implemented yet."] ∧
    (saveToEepromFromTo m start stop).self = m.self ∧
    (saveToEepromFromTo m start stop).EEPROM = m.EEPROM ∧
    (saveToEepromFromTo m start stop).Serial =
      m.Serial ++ ["XEEPROMConfigClass::saveToEeprom(from, to) is not implemented yet."] :=
  ⟨rfl, rfl, rfl, rfl, rfl, rfl⟩

/-! ## Whatever `init` returns -/

theorem setVersion_frame {t : Target} {m m1 : Machine} {v : Nat}
    (h : setVersion t m v = some m1) :
    m1.self._data.length = m.self._data.length ∧ m1.self._dataSize = m.self._dataSize ∧
      m1.EEPROM = m.EEPROM := by
  simp only [setVersion, Option.map_eq_some'] at h
  obtain ⟨d, hd, rfl⟩ := h
  exact ⟨poke_length hd, rfl, rfl⟩

theorem setType_frame {t : Target} {m m1 : Machine} {ty : List Byte}
    (h : setType t m ty = some m1) :
    m1.self._data.length = m.self._data.length ∧ m1.self._dataSize = m.self._dataSize ∧
      m1.EEPROM = m.EEPROM := by
  simp only [setType, Option.bind_eq_some, Option.map_eq_some'] at h
  obtain ⟨w, -, d, hd, d1, hd1, rfl⟩ := h
  refine ⟨?_, rfl, rfl⟩
  show d1.length = m.self._data.length
  rw [poke_length hd1, poke_length hd]
  rfl

theorem initFromDefault_frame {t : Target} {m m1 : Machine}
    (h : initFromDefault t m = some m1) :
    m1.self._data.length = m.self._data.length ∧ m1.self._dataSize = m.self._dataSize ∧
      m1.EEPROM = m.EEPROM := by
  simp only [initFromDefault, Option.bind_eq_some] at h
  obtain ⟨m2, h1, h2⟩ := h
  obtain ⟨a1, a2, a3⟩ := setVersion_frame h1
  obtain ⟨b1, b2, b3⟩ := setType_frame h2
  exact ⟨by rw [b1, a1], by rw [b2, a2], by rw [b3, a3]⟩

/-- Whichever branch it takes, an `init` that returns leaves the first
`_dataSize` cells of the store equal to the buffer and the other cells as they
were. -/
theorem init_sync {t : Target} {m m1 : Machine} (h : init t m = some m1)
    (hlen : m.self._data.length = m.self._dataSize)
    (hst : m.self._dataSize ≤ m.EEPROM.cells.length) :
    m1.EEPROM.cells.take m.self._dataSize = m1.self._data ∧
      m1.EEPROM.cells.drop m.self._dataSize = m.EEPROM.cells.drop m.self._dataSize ∧
      m1.EEPROM.cells.length = m.EEPROM.cells.length := by
  simp only [init, Option.bind_eq_some] at h
  obtain ⟨m2, h1, stale, -, h3⟩ := h
  rw [initFromEeprom_eq m hlen] at h1
  simp only [Option.some.injEq] at h1
  have k1 : m2.self._data = loaded m.EEPROM.cells m.self._dataSize := by rw [← h1]
  have k2 : m2.self._dataSize = m.self._dataSize := by rw [← h1]
  have k3 : m2.EEPROM.cells = m.EEPROM.cells := by rw [← h1]
  split at h3
  · simp only [Option.bind_eq_some] at h3
    obtain ⟨m3, h4, h5⟩ := h3
    obtain ⟨a1, a2, a3⟩ := initFromDefault_frame h4
    have l3 : m3.self._data.length = m.self._dataSize := by
      rw [a1]
      show m2.self._data.length = _
      rw [k1, loaded_length]
    have s3 : m3.self._dataSize = m.self._dataSize := by
      rw [a2]
      exact k2
    have c3 : m3.EEPROM.cells = m.EEPROM.cells := by
      rw [a3]
      exact k3
    rw [saveToEeprom_eq m3 (by rw [l3, s3])] at h5
    simp only [Option.some.injEq] at h5
    have hw := writeAll_full m3.EEPROM.cells m3.self._data (by rw [l3, c3]; exact hst)
    rw [l3, ← s3] at hw
    have hcells : m1.EEPROM.cells = m3.self._data ++ m.EEPROM.cells.drop m.self._dataSize := by
      rw [← h5]
      show writeAll m3.EEPROM.cells (List.zip (List.range m3.self._dataSize) m3.self._data) = _
      rw [hw, s3, c3]
    have hdata : m1.self._data = m3.self._data := by rw [← h5]
    rw [hcells, hdata]
    refine ⟨List.take_left' l3, List.drop_left' l3, ?_⟩
    rw [List.length_append, l3, List.length_drop]
    omega
  · simp only [Option.some.injEq] at h3
    subst h3
    show List.take _ m2.EEPROM.cells = m2.self._data ∧
      List.drop _ m2.EEPROM.cells = _ ∧ m2.EEPROM.cells.length = _
    rw [k1, k3, loaded_eq_take _ _ hst]
    exact ⟨rfl, rfl, rfl⟩

/-- C14. Buffer and store in sync after `init`.  On a store of at least
`dataSize` cells, whatever the expected version, the expected type and the
cells hold, and whichever branch is taken: an `init()` that returns leaves the
first `dataSize` cells of the store equal to the buffer, byte for byte, the
cells from offset `dataSize` on as they were, and as many cells as before.
And `init()` does return when the blob has room for the version and type
fields. -/
theorem C14_init_in_sync (t : Target) (version dataSize : Nat) (type : List Byte)
    (heap : Nat → Byte) (c : XEEPROMConfigClass) (E : EEPROMClass) (S : List String)
    (hc : construct t version type dataSize heap = some c)
    (hst : dataSize ≤ E.cells.length) :
    (∀ m, init t ⟨c, E, S⟩ = some m →
      m.EEPROM.cells.take dataSize = m.self._data ∧
      m.EEPROM.cells.drop dataSize = E.cells.drop dataSize ∧
      m.EEPROM.cells.length = E.cells.length) ∧
    (t.sizeofUInt + t.TYPE_MAX_LENGTH + 1 ≤ dataSize → ∃ m, init t ⟨c, E, S⟩ = some m) := by
  obtain ⟨hI, hn, -, -, -⟩ := construct_spec hc
  subst hn
  refine ⟨fun m hm => init_sync hm hI.data_length hst, fun hsz => ?_⟩
  exact ⟨_, init_eq t ⟨c, E, S⟩ hI hsz⟩

/-- Witness of C14: the object for version 2 and type `"A"` on the store that
holds version 1, where `init()` rewrites the store. -/
theorem C14_init_in_sync_witness :
    ∃ c, construct demo 2 [65, 0] 32 junk = some c ∧
      32 ≤ storeV1A.cells.length ∧
      demo.sizeofUInt + demo.TYPE_MAX_LENGTH + 1 ≤ 32 ∧
      ∃ m, init demo ⟨c, storeV1A, []⟩ = some m ∧
        m.EEPROM.cells.take 32 = m.self._data ∧
        m.EEPROM.cells.drop 32 = storeV1A.cells.drop 32 ∧
        m.EEPROM.cells.length = storeV1A.cells.length := by
  have h := C14_init_in_sync demo 2 32 [65, 0] junk _ storeV1A [] rfl (by decide)
  obtain ⟨m, hm⟩ := h.2 (by decide)
  exact ⟨_, rfl, by decide, by decide, m, hm, h.1 m hm⟩

/-! ## What `setType` writes -/

/-- The first `TYPE_MAX_LENGTH` characters of `s` followed by zeros fill the
`TYPE_MAX_LENGTH + 1` bytes of a type field. -/
theorem field_length (t : Target) (s : List Byte) :
    (s.take t.TYPE_MAX_LENGTH ++
      List.replicate (t.TYPE_MAX_LENGTH + 1 - min s.length t.TYPE_MAX_LENGTH) 0).length =
      t.TYPE_MAX_LENGTH + 1 := by
  simp only [List.length_append, List.length_take, List.length_replicate]
  omega

theorem strncpy_field {t : Target} {type w s : List Byte}
    (hw : strncpy type t.TYPE_MAX_LENGTH = some w) (hs : cstr type = some s) :
    w ++ [0] = s.take t.TYPE_MAX_LENGTH ++
      List.replicate (t.TYPE_MAX_LENGTH + 1 - min s.length t.TYPE_MAX_LENGTH) 0 := by
  obtain ⟨s1, -, g2, g3, g4⟩ := strncpy_shape hw
  have g5 := g4 s hs
  subst g5
  have hl : (s.take t.TYPE_MAX_LENGTH).length = min s.length t.TYPE_MAX_LENGTH := by
    rw [List.length_take, Nat.min_comm]
  rw [g3, hl, replicate_succ_sub _ _ (Nat.min_le_right _ _), List.append_assoc]

/-- C15. What `setType` overwrites.  On a buffer that has room for the
version and type fields, `setType(type)` for a string `s` returns and leaves
the `sizeof(unsigned int)` version bytes as they were, the
`TYPE_MAX_LENGTH + 1` bytes of the type field equal to the first
`min(len(s), TYPE_MAX_LENGTH)` characters of `s` followed by zeros only, and
every byte past the field as it was; length, store and serial line are
unchanged.  And when the store fails the check of `init()`, the version and
type fields of the buffer after `init()` are the bytes of the expected version
followed by that same field content, for the expected type: nothing of the
store is left in them. -/
theorem C15_setType_frame (t : Target) (version dataSize : Nat) (type s : List Byte)
    (heap : Nat → Byte) (m : Machine) (c : XEEPROMConfigClass) (E : EEPROMClass)
    (S : List String)
    (hs : cstr type = some s)
    (hbuf : t.sizeofUInt + t.TYPE_MAX_LENGTH + 1 ≤ m.self._data.length)
    (hc : construct t version type dataSize heap = some c)
    (hsz : t.sizeofUInt + t.TYPE_MAX_LENGTH + 1 ≤ dataSize)
    (hst : dataSize ≤ E.cells.length)
    (hfail : fromBytes (E.cells.take t.sizeofUInt) ≠ version % t.uintRange ∨
      cstr (E.cells.drop t.sizeofUInt) ≠ cstr c._type) :
    (∃ m1, setType t m type = some m1 ∧
      m1.self._data.take t.sizeofUInt = m.self._data.take t.sizeofUInt ∧
      (m1.self._data.drop t.sizeofUInt).take (t.TYPE_MAX_LENGTH + 1) =
        s.take t.TYPE_MAX_LENGTH ++
          List.replicate (t.TYPE_MAX_LENGTH + 1 - min s.length t.TYPE_MAX_LENGTH) 0 ∧
      m1.self._data.drop (t.sizeofUInt + t.TYPE_MAX_LENGTH + 1) =
        m.self._data.drop (t.sizeofUInt + t.TYPE_MAX_LENGTH + 1) ∧
      m1.self._data.length = m.self._data.length ∧
      m1.EEPROM = m.EEPROM ∧ m1.Serial = m.Serial) ∧
    (∃ m2, init t ⟨c, E, S⟩ = some m2 ∧
      m2.self._data.take (t.sizeofUInt + t.TYPE_MAX_LENGTH + 1) =
        toBytes t.sizeofUInt (version % t.uintRange) ++
          (s.take t.TYPE_MAX_LENGTH ++
            List.replicate (t.TYPE_MAX_LENGTH + 1 - min s.length t.TYPE_MAX_LENGTH) 0)) := by
  obtain ⟨w, hw⟩ := strncpy_isSome_of_mem t.TYPE_MAX_LENGTH (cstr_isSome_mem hs)
  have hf := strncpy_field hw hs
  have hfl := field_length t s
  have hA : (m.self._data.take t.sizeofUInt).length = t.sizeofUInt := by
    rw [List.length_take]
    omega
  constructor
  · obtain ⟨m1, e1, -, e3⟩ := setType_getType t m hw hbuf
    have e4 := setType_eq t m hw hbuf
    rw [e1] at e4
    simp only [Option.some.injEq] at e4
    have hd : m1.self._data = m.self._data.take t.sizeofUInt ++
        (s.take t.TYPE_MAX_LENGTH ++
          List.replicate (t.TYPE_MAX_LENGTH + 1 - min s.length t.TYPE_MAX_LENGTH) 0) ++
        m.self._data.drop (t.sizeofUInt + t.TYPE_MAX_LENGTH + 1) := by
      rw [e4, ← hf]
      simp only [List.append_assoc]
    refine ⟨m1, e1, ?_, ?_, ?_, e3, by rw [e4], by rw [e4]⟩
    · rw [hd, List.append_assoc]
      exact List.take_left' hA
    · rw [hd, List.append_assoc, List.drop_left' hA]
      exact List.take_left' hfl
    · rw [hd]
      have := take_append_drop_length (m.self._data.take t.sizeofUInt)
        (s.take t.TYPE_MAX_LENGTH ++
          List.replicate (t.TYPE_MAX_LENGTH + 1 - min s.length t.TYPE_MAX_LENGTH) 0)
        (m.self._data.drop (t.sizeofUInt + t.TYPE_MAX_LENGTH + 1))
      rw [hA, hfl, ← Nat.add_assoc] at this
      exact this
  · obtain ⟨hI, hn, hver, -, w1, hw1, hty⟩ := construct_spec hc
    subst hn
    have hw2 : w1 = w := by
      rw [hw] at hw1
      exact (Option.some.inj hw1).symm
    subst hw2
    have hS : Stale t c (loaded E.cells c._dataSize) :=
      (stale_loaded t c E.cells hI hsz hst).mpr (by rw [hver]; exact hfail)
    have hi := init_eq t ⟨c, E, S⟩ hI hsz
    rw [if_pos hS] at hi
    refine ⟨_, hi, ?_⟩
    show (defaulted t c (loaded E.cells c._dataSize)).take _ = _
    rw [← hf, ← hty, ← hver]
    simp only [defaulted]
    exact List.take_left' (by
      rw [List.length_append, toBytes_length, type_length hI, Nat.add_assoc])

/-- Witness of C15: the type `"AB"` set in a buffer that holds `0xFF`
everywhere, and the object for version 2 and type `"AB"` on the store that
holds version 1. -/
theorem C15_setType_frame_witness :
    ∃ c, construct demo 2 [65, 66, 0] 32 junk = some c ∧
      cstr [65, 66, 0] = some [65, 66] ∧
      demo.sizeofUInt + demo.TYPE_MAX_LENGTH + 1 ≤ dirtyMachine.self._data.length ∧
      demo.sizeofUInt + demo.TYPE_MAX_LENGTH + 1 ≤ 32 ∧
      32 ≤ storeV1A.cells.length ∧
      (fromBytes (storeV1A.cells.take demo.sizeofUInt) ≠ 2 % demo.uintRange ∨
        cstr (storeV1A.cells.drop demo.sizeofUInt) ≠ cstr c._type) ∧
      (∃ m1, setType demo dirtyMachine [65, 66, 0] = some m1 ∧
        m1.self._data.take demo.sizeofUInt = dirtyMachine.self._data.take demo.sizeofUInt ∧
        (m1.self._data.drop demo.sizeofUInt).take (demo.TYPE_MAX_LENGTH + 1) =
          ([65, 66] : List Byte).take demo.TYPE_MAX_LENGTH ++
            List.replicate
              (demo.TYPE_MAX_LENGTH + 1 -
                min ([65, 66] : List Byte).length demo.TYPE_MAX_LENGTH) 0 ∧
        m1.self._data.drop (demo.sizeofUInt + demo.TYPE_MAX_LENGTH + 1) =
          dirtyMachine.self._data.drop (demo.sizeofUInt + demo.TYPE_MAX_LENGTH + 1) ∧
        m1.self._data.length = dirtyMachine.self._data.length ∧
        m1.EEPROM = dirtyMachine.EEPROM ∧ m1.Serial = dirtyMachine.Serial) ∧
      (∃ m2, init demo ⟨c, storeV1A, []⟩ = some m2 ∧
        m2.self._data.take (demo.sizeofUInt + demo.TYPE_MAX_LENGTH + 1) =
          toBytes demo.sizeofUInt (2 % demo.uintRange) ++
            (([65, 66] : List Byte).take demo.TYPE_MAX_LENGTH ++
              List.replicate
                (demo.TYPE_MAX_LENGTH + 1 -
                  min ([65, 66] : List Byte).length demo.TYPE_MAX_LENGTH) 0)) :=
  ⟨_, rfl, by decide, by decide, by decide, by decide, by decide,
    C15_setType_frame demo 2 32 [65, 66, 0] [65, 66] junk dirtyMachine _ storeV1A []
      (by decide) (by decide) rfl (by decide) (by decide) (by decide)⟩

end XEEPROMConfig
